import Mathlib

/-!
Verification development for the draversal repository.

Shallow embedding of `src/draversal/DictSearchQuery.py` (`flatten_dict`,
`reconstruct_item`, `DictSearchQuery`) and of the entry-update logic of
`src/draversal_mcp/storage.py` (`save_tree`), together with spec-side
definitions and theorems settling the frozen claims.

Python values are modelled by the mutually inductive `Value` / `VList` /
`VDict` (JSON-shaped data: None, bool, int, str, list, dict; floats are not
used by any claim).  Python dictionaries are association lists that keep
insertion order and have no duplicate keys; fallible Python code returns
`Except PyErr`.
-/

set_option autoImplicit false

/-- Exceptions that the embedded Python code can raise. -/
inductive PyErr : Type where
  | typeError : PyErr
  | keyError : PyErr
  | indexError : PyErr
  | valueError : PyErr
  | attributeError : PyErr
  deriving DecidableEq, Repr

mutual
/-- A Python/JSON value. -/
inductive Value : Type where
  | pyNone : Value
  | pyBool (b : Bool) : Value
  | pyInt (n : Int) : Value
  | pyStr (s : String) : Value
  | pyList (elems : VList) : Value
  | pyDict (fields : VDict) : Value

/-- A Python list of values. -/
inductive VList : Type where
  | nil : VList
  | cons (v : Value) (rest : VList) : VList

/-- A Python dict: ordered association list of string keys to values. -/
inductive VDict : Type where
  | nil : VDict
  | cons (k : String) (v : Value) (rest : VDict) : VDict
end

deriving instance DecidableEq for Value
deriving instance DecidableEq for VList
deriving instance DecidableEq for VDict

/-- Build a `VList` from a Lean list (for writing literals). -/
def VList.ofList : List Value → VList
  | [] => .nil
  | v :: rest => .cons v (VList.ofList rest)

/-- Build a `VDict` from a Lean list of pairs (for writing literals). -/
def VDict.ofList : List (String × Value) → VDict
  | [] => .nil
  | (k, v) :: rest => .cons k v (VDict.ofList rest)

/-- `isinstance(v, dict)`. -/
def Value.isDict : Value → Bool
  | .pyDict _ => true
  | _ => false

/-- `all(isinstance(i, dict) for i in v)`. -/
def VList.allDict : VList → Bool
  | .nil => true
  | .cons v rest => v.isDict && rest.allDict

/-- Python `d.get(k)` on a dict: first entry with the given key. -/
def VDict.get : VDict → String → Option Value
  | .nil, _ => none
  | .cons k v rest, key => if k = key then some v else rest.get key

/-- `len` of a `VList`. -/
def VList.length : VList → Nat
  | .nil => 0
  | .cons _ rest => rest.length + 1

/-- Python `l[i]` for a non-negative index (no negative indices needed). -/
def VList.get : VList → Nat → Option Value
  | .nil, _ => none
  | .cons v _, 0 => some v
  | .cons _ rest, n + 1 => rest.get n

/-! ### String helpers

The Python string operations the source uses (`split`, `strip`,
`startswith`, `endswith`, `in`, `%`-formatting) are embedded as
executable functions over `List Char`, so that every theorem can be
evaluated by `decide`. -/

/-- Whether `pre` is a prefix of `s` (Python `str.startswith`). -/
def charsIsPrefix : List Char → List Char → Bool
  | [], _ => true
  | _ :: _, [] => false
  | p :: ps, c :: cs => p == c && charsIsPrefix ps cs

/-- Drop a prefix, returning `none` when it is not a prefix. -/
def charsDropPrefix : List Char → List Char → Option (List Char)
  | [], s => some s
  | _ :: _, [] => none
  | p :: ps, c :: cs => if p == c then charsDropPrefix ps cs else none

/-- Python `sub in s` for char lists (contiguous substring test). -/
def charsContainsSub (sub : List Char) : List Char → Bool
  | [] => charsIsPrefix sub []
  | c :: cs => charsIsPrefix sub (c :: cs) || charsContainsSub sub cs

/-- Python `s.split(sep)` for a non-empty separator, on char lists.
`fuel` bounds the recursion; it is instantiated with `s.length + 1`,
which is always sufficient because each step consumes at least one
character of `s`. -/
def charsSplitAux (sep : List Char) : Nat → List Char → List Char → List (List Char)
  | 0, acc, s => [acc.reverse ++ s]
  | _ + 1, acc, [] => [acc.reverse]
  | fuel + 1, acc, c :: cs =>
    match charsDropPrefix sep (c :: cs) with
    | some rest => acc.reverse :: charsSplitAux sep fuel [] rest
    | none => charsSplitAux sep fuel (c :: acc) cs

/-- Python `s.split(sep)` (non-empty `sep`; an empty separator returns
`[s]`, a case no caller exercises since Python raises there). -/
def pySplit (s sep : String) : List String :=
  if sep.data.isEmpty then [s]
  else (charsSplitAux sep.data (s.data.length + 1) [] s.data).map (fun cs => String.mk cs)

/-- Python `s.startswith(p)`. -/
def pyStartsWith (s p : String) : Bool := charsIsPrefix p.data s.data

/-- Python `s.endswith(p)`. -/
def pyEndsWith (s p : String) : Bool := charsIsPrefix p.data.reverse s.data.reverse

/-- Python `c in s` for a single character. -/
def pyHasChar (s : String) (c : Char) : Bool := s.data.any (· == c)

/-- Python `s.strip(ch)`: remove all leading and trailing copies of `ch`. -/
def pyStripChar (s : String) (ch : Char) : String :=
  String.mk (((s.data.dropWhile (· == ch)).reverse.dropWhile (· == ch)).reverse)

/-- Replace the first occurrence of `%s` in a format string by `arg`
(Python `fmt % arg` for the format strings used by this repository,
which always contain exactly one `%s` conversion). -/
def pyFormatS (fmt : String) (arg : String) : String :=
  String.mk (go fmt.data)
where
  go : List Char → List Char
    | [] => []
    | '%' :: 's' :: rest => arg.data ++ rest
    | c :: rest => c :: go rest

/-- Codepoint-lexicographic `<` on char lists (Python string `<`). -/
def charsLt : List Char → List Char → Bool
  | [], [] => false
  | [], _ :: _ => true
  | _ :: _, [] => false
  | a :: as, b :: bs =>
    decide (a.toNat < b.toNat) || (a == b && charsLt as bs)

/-- Codepoint-lexicographic `<=` on char lists (Python string `<=`). -/
def charsLe : List Char → List Char → Bool
  | [], _ => true
  | _ :: _, [] => false
  | a :: as, b :: bs =>
    decide (a.toNat < b.toNat) || (a == b && charsLe as bs)

example : pySplit "a$gt" "$" = ["a", "gt"] := by decide
example : pySplit "a" "$" = ["a"] := by decide
example : pySplit "a$$b" "$" = ["a", "", "b"] := by decide
example : pySplit "a.b.c" "." = ["a", "b", "c"] := by decide
example : pyStripChar "/a.*/" '/' = "a.*" := by decide
example : pyFormatS "#%s" "2" = "#2" := by decide
example : pyHasChar "a*b" '*' = true := by decide

/-! ### Regular-expression engine

Embeds the observable behaviour of `re.compile(...).match(...)` and of
`re.match(fnmatch.translate(...), ...)` for the regex subset this
repository's queries use: literals, `.`, postfix `*`/`+`/`?`, character
classes with ranges and negation, backslash escapes of non-alphanumeric
characters, and a leading inline `(?i)` flag.  Patterns outside this
subset (groups, alternation, anchors, numeric quantifiers,
class escapes) are modelled as non-matching.  `fnmatch.translate` wraps
its output in a dot-all group and a `\Z` anchor; the glob matcher below
realises that composition directly (dot-all, full match required). -/

/-- An atomic regex element. -/
inductive RElem : Type where
  | lit (c : Char) : RElem
  | dot : RElem
  | cls (neg : Bool) (ranges : List (Char × Char)) : RElem
  deriving DecidableEq, Repr

/-- A regex piece: an element with an optional repetition suffix. -/
inductive RPiece : Type where
  | once (e : RElem) : RPiece
  | star (e : RElem) : RPiece
  | plus (e : RElem) : RPiece
  | opt (e : RElem) : RPiece
  deriving DecidableEq, Repr

/-- Parse the items of a `re` character class up to the closing `]`:
single characters, ranges `a-b`, and backslash escapes of
non-alphanumeric characters (alphanumeric escapes are class shorthands,
outside the supported subset). -/
def reClsItems : Nat → List Char → Option (List (Char × Char) × List Char)
  | 0, _ => none
  | _ + 1, [] => none
  | _ + 1, ']' :: rest => some ([], rest)
  | fuel + 1, '\\' :: c :: rest =>
    if c.isAlphanum then none
    else (reClsItems fuel rest).map (fun pr => ((c, c) :: pr.1, pr.2))
  | fuel + 1, c :: '-' :: d :: rest =>
    if d == ']' then some ([(c, c), ('-', '-')], rest)
    else (reClsItems fuel rest).map (fun pr => ((c, d) :: pr.1, pr.2))
  | fuel + 1, c :: rest => (reClsItems fuel rest).map (fun pr => ((c, c) :: pr.1, pr.2))

/-- Parse the items of an `fnmatch` character class: as `reClsItems`, but
a backslash is an ordinary literal character (`translate` escapes it). -/
def globClsItems : Nat → List Char → Option (List (Char × Char) × List Char)
  | 0, _ => none
  | _ + 1, [] => none
  | _ + 1, ']' :: rest => some ([], rest)
  | fuel + 1, c :: '-' :: d :: rest =>
    if d == ']' then some ([(c, c), ('-', '-')], rest)
    else (globClsItems fuel rest).map (fun pr => ((c, d) :: pr.1, pr.2))
  | fuel + 1, c :: rest => (globClsItems fuel rest).map (fun pr => ((c, c) :: pr.1, pr.2))

/-- Parse a regex body into pieces (reversed accumulator), `none` on a
construct outside the supported subset or a `re.error`. -/
def parseReAux : Nat → List Char → List RPiece → Option (List RPiece)
  | 0, _, _ => none
  | _ + 1, [], acc => some acc.reverse
  | fuel + 1, '.' :: rest, acc => parseReAux fuel rest (.once .dot :: acc)
  | fuel + 1, '*' :: rest, acc =>
    match acc with
    | .once e :: acc' => parseReAux fuel rest (.star e :: acc')
    | _ => none
  | fuel + 1, '+' :: rest, acc =>
    match acc with
    | .once e :: acc' => parseReAux fuel rest (.plus e :: acc')
    | _ => none
  | fuel + 1, '?' :: rest, acc =>
    match acc with
    | .once e :: acc' => parseReAux fuel rest (.opt e :: acc')
    | _ => none
  | fuel + 1, '[' :: rest, acc =>
    let pr1 := match rest with | '^' :: r => (true, r) | _ => (false, rest)
    let pr2 := match pr1.2 with | ']' :: r => ([((']' : Char), (']' : Char))], r) | _ => ([], pr1.2)
    (match reClsItems (pr2.2.length + 1) pr2.2 with
     | some (items, r) => parseReAux fuel r (.once (.cls pr1.1 (pr2.1 ++ items)) :: acc)
     | none => none)
  | fuel + 1, '\\' :: c :: rest, acc =>
    if c.isAlphanum then none else parseReAux fuel rest (.once (.lit c) :: acc)
  | _ + 1, ['\\'], _ => none
  | _ + 1, '(' :: _, _ => none
  | _ + 1, ')' :: _, _ => none
  | _ + 1, '|' :: _, _ => none
  | _ + 1, '^' :: _, _ => none
  | _ + 1, '$' :: _, _ => none
  | fuel + 1, c :: rest, acc => parseReAux fuel rest (.once (.lit c) :: acc)

/-- Parse a regex body. -/
def parseRe (body : List Char) : Option (List RPiece) :=
  parseReAux (body.length + 1) body []

/-- Whether a regex element matches one character, under the
case-insensitive and dot-all flags. -/
def elemMatchChar (ci dotAll : Bool) (e : RElem) (c : Char) : Bool :=
  match e with
  | .lit x => if ci then x.toLower == c.toLower else x == c
  | .dot => dotAll || !(c == '\n')
  | .cls neg ranges =>
    let inR := fun (d : Char) => ranges.any (fun r => decide (r.1 ≤ d) && decide (d ≤ r.2))
    let hit := inR c || (ci && (inR c.toLower || inR c.toUpper))
    if neg then !hit else hit

/-- Backtracking matcher over pieces.  `fuel` bounds recursion; every
call decreases `2 * s.length + ps.length`, so the wrapper's fuel never
runs out. -/
def reMatchAux (ci dotAll mustEnd : Bool) : Nat → List RPiece → List Char → Bool
  | 0, _, _ => false
  | _ + 1, [], s => !mustEnd || s.isEmpty
  | fuel + 1, .once e :: ps, s =>
    match s with
    | [] => false
    | c :: cs => elemMatchChar ci dotAll e c && reMatchAux ci dotAll mustEnd fuel ps cs
  | fuel + 1, .opt e :: ps, s =>
    reMatchAux ci dotAll mustEnd fuel ps s ||
      (match s with
       | [] => false
       | c :: cs => elemMatchChar ci dotAll e c && reMatchAux ci dotAll mustEnd fuel ps cs)
  | fuel + 1, .star e :: ps, s =>
    reMatchAux ci dotAll mustEnd fuel ps s ||
      (match s with
       | [] => false
       | c :: cs => elemMatchChar ci dotAll e c && reMatchAux ci dotAll mustEnd fuel (.star e :: ps) cs)
  | fuel + 1, .plus e :: ps, s =>
    match s with
    | [] => false
    | c :: cs => elemMatchChar ci dotAll e c && reMatchAux ci dotAll mustEnd fuel (.star e :: ps) cs

/-- Run the matcher with sufficient fuel. -/
def reMatchPieces (ci dotAll mustEnd : Bool) (ps : List RPiece) (s : List Char) : Bool :=
  reMatchAux ci dotAll mustEnd (2 * s.length + ps.length + 1) ps s

/-- Split a leading literal `(?i)` off a pattern: the IGNORECASE flag
and the remaining body (embeds the flag effect of compiling a pattern
that starts with the inline flag). -/
def reCompileFlag (pattern : String) : Bool × String :=
  if pyStartsWith pattern "(?i)" then (true, String.mk (pattern.data.drop 4))
  else (false, pattern)

/-- Embeds `re.compile(pattern).match(s)` as a Bool: anchored at the
start of `s`, no full-consumption requirement, leading inline `(?i)`
honoured. -/
def reStartMatch (pattern s : String) : Bool :=
  let cf := reCompileFlag pattern
  match parseRe cf.2.data with
  | some ps => reMatchPieces cf.1 false false ps s.data
  | none => false

/-- Translate a glob pattern to pieces (embeds `fnmatch.translate`:
`*` becomes a dot-all run, `?` one character, `[...]` a class with `!`
negation and a literal leading `]`; an unterminated class is a literal
`[`). -/
def globToPieces : Nat → List Char → List RPiece
  | 0, _ => []
  | _ + 1, [] => []
  | fuel + 1, '*' :: rest => .star .dot :: globToPieces fuel rest
  | fuel + 1, '?' :: rest => .once .dot :: globToPieces fuel rest
  | fuel + 1, '[' :: rest =>
    let pr1 := match rest with | '!' :: r => (true, r) | _ => (false, rest)
    let pr2 := match pr1.2 with | ']' :: r => ([((']' : Char), (']' : Char))], r) | _ => ([], pr1.2)
    (match globClsItems (pr2.2.length + 1) pr2.2 with
     | some (items, r) => .once (.cls pr1.1 (pr2.1 ++ items)) :: globToPieces fuel r
     | none => .once (.lit '[') :: globToPieces fuel rest)
  | fuel + 1, c :: rest => .once (.lit c) :: globToPieces fuel rest

/-- Embeds `re.match(fnmatch.translate(pat), s)` as a Bool: dot-all,
anchored full match. -/
def globFullMatch (pat s : String) : Bool :=
  reMatchPieces false true true (globToPieces (pat.data.length + 1) pat.data) s.data

example : reStartMatch ".*" "a.b.c" = true := by decide
example : reStartMatch "a" "bca" = false := by decide
example : reStartMatch "a.c" "abcd" = true := by decide
example : reStartMatch "(?i)child" "Child 2" = true := by decide
example : reStartMatch "child" "Child 2" = false := by decide
example : reStartMatch "" "anything" = true := by decide
example : globFullMatch "*" "a.b.c" = true := by decide
example : globFullMatch "a*b?" "aab" = false := by decide
example : globFullMatch "a*b?" "aabx" = true := by decide
example : globFullMatch "*title" "sections#1.title" = true := by decide
example : globFullMatch "a[xy]c" "ayc" = true := by decide
example : globFullMatch "a[!xy]c" "ayc" = false := by decide
example : globFullMatch "a?" "a" = false := by decide

/-! ### Python value semantics

`==`, `<`, `<=`, `in`, `str()` and `type(...).__name__` for the value
universe, with `Except PyErr` where Python raises (ordering across
incomparable types, containment on non-containers). -/

mutual
/-- Python `==` on values: numeric cross-equality between bool and int,
structural equality on strings and lists, order-insensitive equality on
dicts, `False` across unrelated types (never raises). -/
def pyEq : Value → Value → Bool
  | .pyNone, .pyNone => true
  | .pyBool a, .pyBool b => a == b
  | .pyBool a, .pyInt n => (if a then (1 : Int) else 0) == n
  | .pyInt n, .pyBool b => n == (if b then (1 : Int) else 0)
  | .pyInt a, .pyInt b => a == b
  | .pyStr a, .pyStr b => a == b
  | .pyList a, .pyList b => pyEqList a b
  | .pyDict a, .pyDict b => pyEqDictLen a == pyEqDictLen b && pyEqDictSub a b
  | _, _ => false

/-- Elementwise list equality. -/
def pyEqList : VList → VList → Bool
  | .nil, .nil => true
  | .cons a as, .cons b bs => pyEq a b && pyEqList as bs
  | _, _ => false

/-- Number of entries of a dict. -/
def pyEqDictLen : VDict → Nat
  | .nil => 0
  | .cons _ _ rest => pyEqDictLen rest + 1

/-- Every entry of the first dict has an equal value under the same key
in the second. -/
def pyEqDictSub : VDict → VDict → Bool
  | .nil, _ => true
  | .cons k v rest, b =>
    (match b.get k with
     | some w => pyEq v w
     | none => false) && pyEqDictSub rest b
end

mutual
/-- Python `<`: numeric for int/bool, lexicographic for strings and
lists, `TypeError` for every other combination. -/
def pyLt : Value → Value → Except PyErr Bool
  | .pyInt a, .pyInt b => .ok (decide (a < b))
  | .pyInt a, .pyBool b => .ok (decide (a < (if b then 1 else 0)))
  | .pyBool a, .pyInt b => .ok (decide ((if a then (1 : Int) else 0) < b))
  | .pyBool a, .pyBool b => .ok (decide ((if a then (1 : Int) else 0) < (if b then 1 else 0)))
  | .pyStr a, .pyStr b => .ok (charsLt a.data b.data)
  | .pyList a, .pyList b => pyLtList a b
  | _, _ => .error .typeError

/-- Lexicographic list `<` (first differing element decides). -/
def pyLtList : VList → VList → Except PyErr Bool
  | .nil, .nil => .ok false
  | .nil, .cons _ _ => .ok true
  | .cons _ _, .nil => .ok false
  | .cons a as, .cons b bs => if pyEq a b then pyLtList as bs else pyLt a b
end

mutual
/-- Python `<=`: as `pyLt` with equality allowed. -/
def pyLe : Value → Value → Except PyErr Bool
  | .pyInt a, .pyInt b => .ok (decide (a ≤ b))
  | .pyInt a, .pyBool b => .ok (decide (a ≤ (if b then 1 else 0)))
  | .pyBool a, .pyInt b => .ok (decide ((if a then (1 : Int) else 0) ≤ b))
  | .pyBool a, .pyBool b => .ok (decide ((if a then (1 : Int) else 0) ≤ (if b then 1 else 0)))
  | .pyStr a, .pyStr b => .ok (charsLe a.data b.data)
  | .pyList a, .pyList b => pyLeList a b
  | _, _ => .error .typeError

/-- Lexicographic list `<=`. -/
def pyLeList : VList → VList → Except PyErr Bool
  | .nil, _ => .ok true
  | .cons _ _, .nil => .ok false
  | .cons a as, .cons b bs => if pyEq a b then pyLeList as bs else pyLt a b
end

/-- Whether some element of the list is `==` to the value. -/
def vlistHasEq : VList → Value → Bool
  | .nil, _ => false
  | .cons a rest, b => pyEq a b || vlistHasEq rest b

/-- Python `b in a` (`operator.contains(a, b)`): substring test on
strings, membership by `==` on lists, key membership on dicts
(non-string hashable keys never equal the string keys; unhashable
arguments raise), `TypeError` on non-containers. -/
def pyContains (a b : Value) : Except PyErr Bool :=
  match a with
  | .pyStr s =>
    (match b with
     | .pyStr sub => .ok (charsContainsSub sub.data s.data)
     | _ => .error .typeError)
  | .pyList l => .ok (vlistHasEq l b)
  | .pyDict d =>
    (match b with
     | .pyStr k => .ok ((d.get k).isSome)
     | .pyList _ => .error .typeError
     | .pyDict _ => .error .typeError
     | _ => .ok false)
  | _ => .error .typeError

/-- `type(v).__name__`. -/
def typeName : Value → String
  | .pyNone => "NoneType"
  | .pyBool _ => "bool"
  | .pyInt _ => "int"
  | .pyStr _ => "str"
  | .pyList _ => "list"
  | .pyDict _ => "dict"

mutual
/-- Python `str(v)`: the string itself for strings, `repr` otherwise. -/
def pyStrFn : Value → String
  | .pyStr s => s
  | v => pyReprFn v

/-- Python `repr(v)` (single-quoted strings, no escape refinements —
no claim depends on container rendering). -/
def pyReprFn : Value → String
  | .pyNone => "None"
  | .pyBool b => if b then "True" else "False"
  | .pyInt n => toString n
  | .pyStr s => "\x27" ++ s ++ "\x27"
  | .pyList l => "[" ++ pyReprList l ++ "]"
  | .pyDict d => "\x7b" ++ pyReprDict d ++ "\x7d"

/-- Comma-separated reprs of list elements. -/
def pyReprList : VList → String
  | .nil => ""
  | .cons v .nil => pyReprFn v
  | .cons v rest => pyReprFn v ++ ", " ++ pyReprList rest

/-- Comma-separated reprs of dict entries. -/
def pyReprDict : VDict → String
  | .nil => ""
  | .cons k v .nil => "\x27" ++ k ++ "\x27: " ++ pyReprFn v
  | .cons k v rest => "\x27" ++ k ++ "\x27: " ++ pyReprFn v ++ ", " ++ pyReprDict rest
end

/-- Python `is`, modelled for this value universe: identity coincides
with equality on the interned scalars (`None`, booleans, small
integers, strings from the same literal pool) and is `false` between
distinct container objects; no claim depends on finer identity. -/
def pyIs : Value → Value → Bool
  | .pyNone, .pyNone => true
  | .pyBool a, .pyBool b => a == b
  | .pyInt a, .pyInt b => a == b
  | .pyStr a, .pyStr b => a == b
  | _, _ => false

deriving instance DecidableEq for Except

example : pyEq (.pyInt 1) (.pyBool true) = true := by decide
example : pyEq (.pyStr "a") (.pyInt 1) = false := by decide
example : pyLt (.pyInt 0) (.pyStr "x") = .error .typeError := by decide
example : pyLt (.pyStr "a") (.pyStr "b") = .ok true := by decide
example : pyContains (.pyStr "abc") (.pyStr "bc") = .ok true := by decide

/-! ### Flat maps

A flattened dictionary is a `List (String × Value)` that behaves like a
Python dict: `dictSet` models `d[k] = v` (update in place, else
append), `dictUpdate` models `d.update(other)`, `lookupValue` models
`d[k]`/`k in d`. -/

/-- `d[k] = v`: replace the value at the first matching key, else
append a new entry. -/
def dictSet : List (String × Value) → String → Value → List (String × Value)
  | [], k, v => [(k, v)]
  | (j, w) :: rest, k, v => if j = k then (k, v) :: rest else (j, w) :: dictSet rest k v

/-- `d.update(other)`: apply `dictSet` for each entry of `other` in
order. -/
def dictUpdate (a b : List (String × Value)) : List (String × Value) :=
  b.foldl (fun acc p => dictSet acc p.1 p.2) a

/-- `d.get(k)` / `k in d` on a flat map. -/
def lookupValue : List (String × Value) → String → Option Value
  | [], _ => none
  | (j, w) :: rest, k => if j = k then some w else lookupValue rest k

/-! ### Operator table (`DictSearchQuery.OPERATOR_MAP`) -/

/-- The names of `DictSearchQuery.OPERATOR_MAP`, in source order. -/
def OPERATOR_KEYS : List String :=
  ["eq", "ge", "gt", "le", "lt", "ne", "func", "contains", "is", "in", "type", "exists", "regex"]

/-- The `regex` operator:
`re.match(compile(q, IGNORECASE if q.startswith('(?i)') else 0), v)`.
The pattern is compiled first (a non-string query has no `startswith`,
an `AttributeError`); `re.match` then requires a string subject
(`TypeError` otherwise). -/
def pyRegexOp (v q : Value) : Except PyErr Bool :=
  match q with
  | .pyStr qs =>
    (match v with
     | .pyStr s => .ok (reStartMatch qs s)
     | _ => .error .typeError)
  | _ => .error .attributeError

/-- Apply a named operator of `OPERATOR_MAP` to `(leaf value, query
value)`.  `func` calls the query value, which is never callable in this
value universe, a `TypeError`.  The catch-all branch is unreachable
behind the membership test in `operate`. -/
def applyOp (name : String) (v q : Value) : Except PyErr Bool :=
  if name = "eq" then .ok (pyEq v q)
  else if name = "ge" then pyLe q v
  else if name = "gt" then pyLt q v
  else if name = "le" then pyLe v q
  else if name = "lt" then pyLt v q
  else if name = "ne" then .ok (!pyEq v q)
  else if name = "func" then .error .typeError
  else if name = "contains" then pyContains v q
  else if name = "is" then .ok (pyIs v q)
  else if name = "in" then pyContains q v
  else if name = "type" then .ok (typeName v == pyStrFn q)
  else if name = "exists" then .ok true
  else if name = "regex" then pyRegexOp v q
  else .ok false

/-! ### `flatten_dict` -/

mutual
/-- The inner `_` of `flatten_dict`, iterating a dict's items and
accumulating into `items`: a nested dict recurses with the joined key
and merges the fresh result; a list whose every element is a dict
recurses per element with an index-formatted key; anything else is
stored verbatim. -/
def flattenItems (fs lii : String) : VDict → String → List (String × Value) → List (String × Value)
  | .nil, _, items => items
  | .cons k v rest, parent, items =>
    let newKey := if parent = "" then k else parent ++ fs ++ k
    match v with
    | .pyDict kvs =>
      flattenItems fs lii rest parent (dictUpdate items (flattenItems fs lii kvs newKey []))
    | .pyList vs =>
      if vs.allDict then
        flattenItems fs lii rest parent (flattenListElems fs lii vs newKey 0 items)
      else
        flattenItems fs lii rest parent (dictSet items newKey (.pyList vs))
    | w => flattenItems fs lii rest parent (dictSet items newKey w)

/-- The `for i, elem in enumerate(v)` loop of `flatten_dict` over a
list of dicts (the non-dict branch is unreachable behind the
`allDict` guard). -/
def flattenListElems (fs lii : String) : VList → String → Nat → List (String × Value) → List (String × Value)
  | .nil, _, _, items => items
  | .cons e rest, newKey, i, items =>
    match e with
    | .pyDict kvs =>
      flattenListElems fs lii rest newKey (i + 1)
        (dictUpdate items (flattenItems fs lii kvs (newKey ++ pyFormatS lii (toString i)) []))
    | _ => flattenListElems fs lii rest newKey (i + 1) items
end

/-- `flatten_dict(data, field_separator='.', list_index_indicator='#%s')`. -/
def flatten_dict (data : VDict) (fs : String := ".") (lii : String := "#%s") :
    List (String × Value) :=
  flattenItems fs lii data "" []

example :
    flatten_dict (VDict.ofList
      [("a", .pyDict (VDict.ofList [("b", .pyDict (VDict.ofList [("c", .pyInt 1)]))])),
       ("d", .pyList (VList.ofList
         [.pyDict (VDict.ofList [("e", .pyInt 2)]),
          .pyDict (VDict.ofList [("f", .pyInt 3)])]))]) "." "#%s" =
      [("a.b.c", .pyInt 1), ("d#0.e", .pyInt 2), ("d#1.f", .pyInt 3)] := by decide

/-! ### `reconstruct_item` -/

/-- Python `int(s)` restricted to the shapes this code can receive:
an optional sign followed by decimal digits, `ValueError` otherwise. -/
def pyIntParse (s : String) : Except PyErr Int :=
  match s.data with
  | '-' :: ds => (digitsVal ds).elim (.error .valueError) (fun n => .ok (-(n : Int)))
  | '+' :: ds => (digitsVal ds).elim (.error .valueError) (fun n => .ok (n : Int))
  | ds => (digitsVal ds).elim (.error .valueError) (fun n => .ok (n : Int))
where
  digitsVal (ds : List Char) : Option Nat :=
    if ds.isEmpty || !ds.all (·.isDigit) then none
    else some (ds.foldl (fun acc c => acc * 10 + (c.toNat - 48)) 0)

/-- Python subscripting `item[key]` with a string key. -/
def pyGetItemStr (item : Value) (k : String) : Except PyErr Value :=
  match item with
  | .pyDict d =>
    (match d.get k with
     | some v => .ok v
     | none => .error .keyError)
  | _ => .error .typeError

/-- Python subscripting `item[i]` with an integer index (negative
indices count from the end, as in Python). -/
def pyGetItemInt (item : Value) (i : Int) : Except PyErr Value :=
  match item with
  | .pyList l =>
    let n := (if i < 0 then i + l.length else i)
    if 0 ≤ n then
      (match l.get n.toNat with
       | some v => .ok v
       | none => .error .indexError)
    else .error .indexError
  | .pyDict _ => .error .keyError
  | _ => .error .typeError

/-- The loop body of `reconstruct_item` over the non-final segments of
the query key.  The guard on the second line of the loop is embedded
exactly as the source writes it: it tests the length of `key_main`,
not the length of `key_parts`. -/
def reconstructGo (lii : String) : List String → Value → Except PyErr Value
  | [], item => .ok item
  | key :: rest, item =>
    let key_parts := pySplit key lii
    let key_main := key_parts.headD ""
    if key_main.length > 1 then
      match key_parts.get? 1 with
      | none => .error .indexError
      | some ixs =>
        (match pyIntParse ixs with
         | .error e => .error e
         | .ok idx =>
           (match pyGetItemStr item key_main with
            | .error e => .error e
            | .ok item1 =>
              (match pyGetItemInt item1 idx with
               | .error e => .error e
               | .ok item2 => reconstructGo lii rest item2)))
    else
      (match pyGetItemStr item key_main with
       | .error e => .error e
       | .ok item1 => reconstructGo lii rest item1)

/-- `reconstruct_item(query_key, item, field_separator='.',
list_index_indicator='#')`. -/
def reconstruct_item (query_key : String) (item : Value)
    (fs : String := ".") (lii : String := "#") : Except PyErr Value :=
  reconstructGo lii ((pySplit query_key fs).dropLast) item

/-! ### `DictSearchQuery` -/

/-- The query object: a query dict plus the two support flags — exactly
the state `__init__` stores (the source constructor accepts no other
parameters). -/
structure DictSearchQuery : Type where
  query : List (String × Value)
  support_wildcards : Bool := true
  support_regex : Bool := true
  deriving DecidableEq

/-- `is_regex`: wrapped in forward slashes. -/
def DictSearchQuery.is_regex (_ : DictSearchQuery) (query_key : String) : Bool :=
  pyStartsWith query_key "/" && pyEndsWith query_key "/"

/-- `is_wildcard`: contains `?`, `*`, or both `[` and `]`. -/
def DictSearchQuery.is_wildcard (_ : DictSearchQuery) (query_key : String) : Bool :=
  pyHasChar query_key '?' || pyHasChar query_key '*' ||
    (pyHasChar query_key '[' && pyHasChar query_key ']')

/-- `match_regex`: requires `support_regex`, the `/.../` shape, and a
start-anchored match of the slash-stripped pattern. -/
def DictSearchQuery.match_regex (d : DictSearchQuery) (query_key new_key : String) : Bool :=
  d.support_regex && d.is_regex query_key &&
    reStartMatch (pyStripChar query_key '/') new_key

/-- `match_wildcards`: requires `support_wildcards`, a wildcard
character, and a full glob-translated match. -/
def DictSearchQuery.match_wildcards (d : DictSearchQuery) (query_key new_key : String) : Bool :=
  d.support_wildcards && d.is_wildcard query_key && globFullMatch query_key new_key

/-- `match`: regex attempt, then wildcard attempt, then exact equality
(`match` is a Lean keyword, hence the name `matchKey`). -/
def DictSearchQuery.matchKey (d : DictSearchQuery) (query_key new_key : String) : Bool :=
  d.match_regex query_key new_key || d.match_wildcards query_key new_key ||
    query_key == new_key

/-- `operate`: `field in data and operator in OPERATOR_MAP and
OPERATOR_MAP[operator](data[field], query)` with Python's left-to-right
short-circuiting. -/
def DictSearchQuery.operate (_ : DictSearchQuery) (operator field : String)
    (data : List (String × Value)) (query : Value) : Except PyErr Bool :=
  match lookupValue data field with
  | none => .ok false
  | some v => if OPERATOR_KEYS.contains operator then applyOp operator v query else .ok false

/-- Split a query key on `'$'` into its pattern and operator:
`q_key_parts[0]` and `q_key_parts[1] if len(q_key_parts) > 1 else 'eq'`. -/
def splitQueryKey (q_key : String) : String × String :=
  let parts := pySplit q_key "$"
  (parts.headD "", parts.getD 1 "eq")

/-- `query_keys_matched.add(q_key)`: set insertion, modelled on a
duplicate-free list. -/
def setAdd (s : List String) (k : String) : List String :=
  if s.contains k then s else s ++ [k]

/-- The inner `for new_key, value in flattened_data.items()` loop of
`execute` for one query entry. -/
def execInner (d : DictSearchQuery) (flat : List (String × Value))
    (q_key q_main q_op : String) (q_value : Value) :
    List (String × Value) → List (String × Value) → List String →
      Except PyErr (List (String × Value) × List String)
  | [], mf, mks => .ok (mf, mks)
  | (new_key, value) :: rest, mf, mks =>
    if d.matchKey q_main new_key then
      match d.operate q_op new_key flat q_value with
      | .error e => .error e
      | .ok true =>
        execInner d flat q_key q_main q_op q_value rest (dictSet mf new_key value) (setAdd mks q_key)
      | .ok false => execInner d flat q_key q_main q_op q_value rest mf mks
    else execInner d flat q_key q_main q_op q_value rest mf mks

/-- The outer `for q_key, q_value in self.query.items()` loop of
`execute`. -/
def execOuter (d : DictSearchQuery) (flat : List (String × Value)) :
    List (String × Value) → List (String × Value) → List String →
      Except PyErr (List (String × Value) × List String)
  | [], mf, mks => .ok (mf, mks)
  | (q_key, q_value) :: rest, mf, mks =>
    let qs := splitQueryKey q_key
    match execInner d flat q_key qs.1 qs.2 q_value flat mf mks with
    | .error e => .error e
    | .ok (mf', mks') => execOuter d flat rest mf' mks'

/-- Python `set(a) == set(b)` on string lists. -/
def sameStrSet (a b : List String) : Bool :=
  a.all (b.contains ·) && b.all (a.contains ·)

/-- `execute(data, field_separator='.', list_index_indicator='#%s')`:
flatten, scan every query entry against every flat key, and return the
matched fields only when every query key matched at least once. -/
def DictSearchQuery.execute (d : DictSearchQuery) (data : VDict)
    (fs : String := ".") (lii : String := "#%s") :
    Except PyErr (List (String × Value)) :=
  match execOuter d (flatten_dict data fs lii) d.query [] [] with
  | .error e => .error e
  | .ok (mf, mks) => if sameStrSet mks (d.query.map Prod.fst) then .ok mf else .ok []

example :
    DictSearchQuery.execute ⟨[("a.b.c", .pyInt 1)], true, true⟩
      (VDict.ofList
        [("a", .pyDict (VDict.ofList [("b", .pyDict (VDict.ofList [("c", .pyInt 1)]))])),
         ("d", .pyList (VList.ofList
           [.pyDict (VDict.ofList [("e", .pyInt 2)]),
            .pyDict (VDict.ofList [("f", .pyInt 3)])]))]) "." "#%s" =
      .ok [("a.b.c", .pyInt 1)] := by decide

example :
    DictSearchQuery.execute ⟨[("*", .pyInt 1)], true, true⟩
      (VDict.ofList
        [("a", .pyDict (VDict.ofList [("b", .pyDict (VDict.ofList [("c", .pyInt 1)]))])),
         ("d", .pyList (VList.ofList
           [.pyDict (VDict.ofList [("e", .pyInt 2)]),
            .pyDict (VDict.ofList [("f", .pyInt 3)])]))]) "." "#%s" =
      .ok [("a.b.c", .pyInt 1)] := by decide

example :
    DictSearchQuery.execute ⟨[("/.*/", .pyInt 1)], true, true⟩
      (VDict.ofList
        [("a", .pyDict (VDict.ofList [("b", .pyDict (VDict.ofList [("c", .pyInt 1)]))])),
         ("d", .pyList (VList.ofList
           [.pyDict (VDict.ofList [("e", .pyInt 2)]),
            .pyDict (VDict.ofList [("f", .pyInt 3)])]))]) "." "#%s" =
      .ok [("a.b.c", .pyInt 1)] := by decide

example :
    DictSearchQuery.execute ⟨[("a.b.c", .pyInt 1), ("x.y", .pyInt 9)], true, true⟩
      (VDict.ofList
        [("a", .pyDict (VDict.ofList [("b", .pyDict (VDict.ofList [("c", .pyInt 1)]))])),
         ("d", .pyList (VList.ofList
           [.pyDict (VDict.ofList [("e", .pyInt 2)]),
            .pyDict (VDict.ofList [("f", .pyInt 3)])]))]) "." "#%s" =
      .ok [] := by decide

/-! ### Storage (`src/draversal_mcp/storage.py`)

`save_tree` is embedded at the level of the tree store: the store is a
map from tree id to entry, and the JSON/directory file handling (both
branches write the same entry fields) is abstracted into reading and
writing that map.  `uuid.uuid4()` and `datetime.now()` are passed in as
the `freshId` and `now` parameters. -/

/-- A stored tree entry (the fields `save_tree` writes besides the id). -/
structure TreeEntry : Type where
  data : VDict
  children_field : String
  label_field : Option String
  count : Nat
  top_labels : List Value
  cursor_path : List Nat
  schema : Option Value
  created_at : String
  updated_at : String
  deriving DecidableEq

/-- The metadata dictionary `save_tree` returns. -/
structure SaveResult : Type where
  tree_id : String
  created_at : String
  updated_at : String
  count : Nat
  top_labels : List Value
  cursor_path : List Nat
  schema : Option Value
  deriving DecidableEq

mutual
/-- `_count_nodes(item, children_field)`: one per dict node plus the
recursive counts over the children list (a missing or non-list
children field contributes nothing; a non-dict item counts zero). -/
def count_nodes : Value → String → Nat
  | .pyDict d, cf => 1 + count_childSum d cf
  | _, _ => 0

/-- The recursive count below `item.get(children_field, [])`: scan for
the first entry named `children_field` (dict keys are unique) and sum
over it when it is a list. -/
def count_childSum : VDict → String → Nat
  | .nil, _ => 0
  | .cons k v rest, cf =>
    if k = cf then
      (match v with
       | .pyList l => count_nodesList l cf
       | _ => 0)
    else count_childSum rest cf

/-- Sum of `_count_nodes` over a children list. -/
def count_nodesList : VList → String → Nat
  | .nil, _ => 0
  | .cons v rest, cf => count_nodes v cf + count_nodesList rest cf
end

/-- The label-collecting loop of `_top_labels` over the children list. -/
def topLabelsList (label : String) : VList → List Value
  | .nil => []
  | .cons (.pyDict d) rest =>
    (match d.get label with
     | some v => v :: topLabelsList label rest
     | none => topLabelsList label rest)
  | .cons _ rest => topLabelsList label rest

/-- `_top_labels(item, children_field, label_field)`: the label values
of the dict children of the root (empty without a truthy label field,
a dict item, and a list-valued children field). -/
def top_labels (item : Value) (cf : String) (lf : Option String) : List Value :=
  match lf with
  | none => []
  | some label =>
    if label = "" then []
    else
      match item with
      | .pyDict d =>
        (match d.get cf with
         | some (.pyList l) => topLabelsList label l
         | _ => [])
      | _ => []

/-- Store update `store["trees"][tree_id] = entry` (or writing the
tree's file in a directory store). -/
def entrySet : List (String × TreeEntry) → String → TreeEntry → List (String × TreeEntry)
  | [], k, v => [(k, v)]
  | (j, w) :: rest, k, v => if j = k then (k, v) :: rest else (j, w) :: entrySet rest k v

/-- Store lookup `store["trees"].get(tree_id)` (or loading the tree's
file, with `KeyError` mapped to `none`). -/
def lookupEntry : List (String × TreeEntry) → String → Option TreeEntry
  | [], _ => none
  | (j, w) :: rest, k => if j = k then some w else lookupEntry rest k

/-- `save_tree(data, children_field, label_field, tree_id, schema)`
over a store: resolve id, `created_at`, `cursor_path` and `schema` from
the optional existing entry, recompute `count` and `top_labels` from
the new data, write the entry, and return the new store plus the
metadata. -/
def save_tree (store : List (String × TreeEntry)) (data : VDict) (children_field : String)
    (label_field : Option String) (tree_id : Option String) (schema : Option Value)
    (now freshId : String) : List (String × TreeEntry) × SaveResult :=
  let resolved : String × String × List Nat × Option Value :=
    match tree_id with
    | none => (freshId, now, [], schema)
    | some id =>
      match lookupEntry store id with
      | none => (id, now, [], schema)
      | some e => (id, e.created_at, e.cursor_path, if schema = none then e.schema else schema)
  let id := resolved.1
  let created_at := resolved.2.1
  let cursor_path := resolved.2.2.1
  let schema' := resolved.2.2.2
  let count := count_nodes (.pyDict data) children_field
  let top := top_labels (.pyDict data) children_field label_field
  let entry : TreeEntry :=
    ⟨data, children_field, label_field, count, top, cursor_path, schema', created_at, now⟩
  (entrySet store id entry, ⟨id, created_at, now, count, top, cursor_path, schema'⟩)

/-! ### Claims: concrete evaluations (C9, C3, C2, C6) -/

/-- Claim C9: `DictSearchQuery.execute` is not exception-free for
recognized operators: on `data = \x7b'a': 'x'\x7d` with query
`\x7b'*$gt': 0\x7d` the wildcard pattern `*` matches the flat key `a`,
the `gt` operator compares the string leaf `'x'` with the integer
query value `0`, and the resulting `TypeError` propagates out of
`execute` instead of being treated as a non-match. -/
theorem execute_propagates_typeerror_from_ordering_operator :
    applyOp "gt" (.pyStr "x") (.pyInt 0) = .error .typeError ∧
    (DictSearchQuery.mk [("*$gt", .pyInt 0)] true true).matchKey "*" "a" = true ∧
    DictSearchQuery.execute (DictSearchQuery.mk [("*$gt", .pyInt 0)] true true)
      (VDict.ofList [("a", .pyStr "x")]) "." "#%s" = .error .typeError := by
  refine ⟨by decide, by decide, by decide⟩

/-- Claim C3 (failing-code evaluation): the operator-suffix separator is
hard-coded to `'$'` in `execute` (and the constructor stores no
separator at all): a key `a$eq` is split into pattern `a` and operator
`eq`, while a key `a|eq` is treated as the literal pattern `a|eq` with
the implied operator `eq` — no alternative separator takes effect. -/
theorem operator_separator_hardcoded :
    DictSearchQuery.execute (DictSearchQuery.mk [("a$eq", .pyInt 5)] true true)
      (VDict.ofList [("a", .pyInt 5)]) "." "#%s" = .ok [("a", .pyInt 5)] ∧
    DictSearchQuery.execute (DictSearchQuery.mk [("a|eq", .pyInt 5)] true true)
      (VDict.ofList [("a", .pyInt 5)]) "." "#%s" = .ok [] ∧
    DictSearchQuery.execute (DictSearchQuery.mk [("a|eq", .pyInt 5)] true true)
      (VDict.ofList [("a|eq", .pyInt 5)]) "." "#%s" = .ok [("a|eq", .pyInt 5)] := by
  refine ⟨by decide, by decide, by decide⟩

/-- Claim C2 (failing-code evaluation): `reconstruct_item` tests
`len(key_main) > 1` where the algorithm requires `len(key_parts) > 1`.
Hence on the FlatKey `ab.c` of `\x7b'ab': \x7b'c': 1\x7d\x7d` it reads the absent
`key_parts[1]` and raises `IndexError` instead of returning the
enclosing container, and on the FlatKey `d#0.e` of
`\x7b'd': [\x7b'e': 2\x7d]\x7d` it skips the list indexing and returns the list
`[\x7b'e': 2\x7d]` instead of the enclosing container `\x7b'e': 2\x7d`. -/
theorem reconstruct_item_wrong_length_guard :
    flatten_dict (VDict.ofList [("ab", .pyDict (VDict.ofList [("c", .pyInt 1)]))]) "." "#%s" =
      [("ab.c", .pyInt 1)] ∧
    reconstruct_item "ab.c"
      (.pyDict (VDict.ofList [("ab", .pyDict (VDict.ofList [("c", .pyInt 1)]))])) "." "#" =
      .error .indexError ∧
    flatten_dict (VDict.ofList
        [("d", .pyList (VList.ofList [.pyDict (VDict.ofList [("e", .pyInt 2)])]))]) "." "#%s" =
      [("d#0.e", .pyInt 2)] ∧
    reconstruct_item "d#0.e"
      (.pyDict (VDict.ofList
        [("d", .pyList (VList.ofList [.pyDict (VDict.ofList [("e", .pyInt 2)])]))])) "." "#" =
      .ok (.pyList (VList.ofList [.pyDict (VDict.ofList [("e", .pyInt 2)])])) := by
  refine ⟨by decide, by decide, by decide, by decide⟩

/-- Claim C6 (counterexample): the `regex` operator applies `re.match`
to the leaf value itself, not to its string form: on the integer leaf
`5` with query pattern `'5'` it raises `TypeError` instead of
returning a match result, and the error propagates out of `execute`. -/
theorem regex_operator_raises_on_int_leaf :
    applyOp "regex" (.pyInt 5) (.pyStr "5") = .error .typeError ∧
    DictSearchQuery.execute (DictSearchQuery.mk [("a$regex", .pyStr "5")] true true)
      (VDict.ofList [("a", .pyInt 5)]) "." "#%s" = .error .typeError := by
  refine ⟨by decide, by decide⟩

/-- Claim C6 (amended): for a string query pattern, the `regex`
operator returns the boolean of a start-anchored match when the leaf
is a string — compiled case-insensitively exactly when the query
literally starts with `(?i)` — and raises `TypeError` when the leaf is
an integer (or any non-string). -/
theorem regex_operator_amended :
    (∀ s q : String, applyOp "regex" (.pyStr s) (.pyStr q) = .ok (reStartMatch q s)) ∧
    (∀ q : String, (reCompileFlag q).1 = pyStartsWith q "(?i)") ∧
    applyOp "regex" (.pyStr "ABC") (.pyStr "(?i)ab") = .ok true ∧
    applyOp "regex" (.pyStr "ABC") (.pyStr "ab") = .ok false ∧
    (∀ (n : Int) (q : String), applyOp "regex" (.pyInt n) (.pyStr q) = .error .typeError) := by
  refine ⟨fun s q => rfl, fun q => ?_, by decide, by decide, fun n q => rfl⟩
  unfold reCompileFlag
  by_cases h : pyStartsWith q "(?i)" = true <;> simp [h]

/-! ### Claim C5: classifier priority and toggles -/

/-- Boolean guard as a conjunction. -/
lemma if_bool_and (a b : Bool) : (if a = true then b else false) = (a && b) := by
  cases a <;> simp

/-- Spec-side classifier chain: try regex when regex support is on and
the pattern is slash-wrapped (start-anchored match of the stripped
pattern), then wildcard when wildcard support is on and the pattern
contains `?`, `*`, or both `[` and `]` (full glob-translated match),
then exact string equality. -/
def specMatchChain (sw sr : Bool) (qk nk : String) : Bool :=
  (if sr && (pyStartsWith qk "/" && pyEndsWith qk "/") = true then
    reStartMatch (pyStripChar qk '/') nk
   else false) ||
  (if sw && (pyHasChar qk '?' || pyHasChar qk '*' ||
      (pyHasChar qk '[' && pyHasChar qk ']')) = true then
    globFullMatch qk nk
   else false) ||
  (qk == nk)

/-- Claim C5: `match` tries regex first (only with `support_regex` and
a `/…/` pattern, anchored at the start), then wildcard (only with
`support_wildcards` and a wildcard-shaped pattern, full match), then
exact equality; disabling a classifier makes patterns of its shape
fall through to the next.  The final conjuncts exercise the fall-
through on the pattern `/a*/`, which has both regex and wildcard
shape. -/
theorem match_priority_and_toggles :
    (∀ (q : List (String × Value)) (sw sr : Bool) (qk nk : String),
      (DictSearchQuery.mk q sw sr).matchKey qk nk = specMatchChain sw sr qk nk) ∧
    (∀ (q : List (String × Value)) (sw : Bool) (qk nk : String),
      (DictSearchQuery.mk q sw false).matchKey qk nk =
        ((if sw && (pyHasChar qk '?' || pyHasChar qk '*' ||
             (pyHasChar qk '[' && pyHasChar qk ']')) = true then
           globFullMatch qk nk
         else false) || (qk == nk))) ∧
    (∀ (q : List (String × Value)) (sr : Bool) (qk nk : String),
      (DictSearchQuery.mk q false sr).matchKey qk nk =
        ((if sr && (pyStartsWith qk "/" && pyEndsWith qk "/") = true then
           reStartMatch (pyStripChar qk '/') nk
         else false) || (qk == nk))) ∧
    (DictSearchQuery.mk [] true true).matchKey "/a*/" "ab" = true ∧
    (DictSearchQuery.mk [] true false).matchKey "/a*/" "ab" = false ∧
    (DictSearchQuery.mk [] true false).matchKey "/a*/" "/aa/" = true ∧
    (DictSearchQuery.mk [] false false).matchKey "/a*/" "/a*/" = true := by
  refine ⟨?_, ?_, ?_, by decide, by decide, by decide, by decide⟩
  · intro q sw sr qk nk
    simp only [DictSearchQuery.matchKey, DictSearchQuery.match_regex,
      DictSearchQuery.match_wildcards, DictSearchQuery.is_regex,
      DictSearchQuery.is_wildcard, specMatchChain, if_bool_and]
    cases sr <;> cases sw <;> simp [Bool.and_assoc]
  · intro q sw qk nk
    simp only [DictSearchQuery.matchKey, DictSearchQuery.match_regex,
      DictSearchQuery.match_wildcards, DictSearchQuery.is_regex,
      DictSearchQuery.is_wildcard, if_bool_and]
    cases sw <;> simp [Bool.and_assoc]
  · intro q sr qk nk
    simp only [DictSearchQuery.matchKey, DictSearchQuery.match_regex,
      DictSearchQuery.match_wildcards, DictSearchQuery.is_regex,
      DictSearchQuery.is_wildcard, if_bool_and]
    cases sr <;> simp [Bool.and_assoc]

/-! ### Claim C8: empty containers contribute nothing -/

/-- One step of the `for k, v in data.items()` loop of `flatten_dict`. -/
def flattenStep (fs lii parent : String) (items : List (String × Value))
    (k : String) (v : Value) : List (String × Value) :=
  let newKey := if parent = "" then k else parent ++ fs ++ k
  match v with
  | .pyDict kvs => dictUpdate items (flattenItems fs lii kvs newKey [])
  | .pyList vs =>
    if vs.allDict then flattenListElems fs lii vs newKey 0 items
    else dictSet items newKey (.pyList vs)
  | w => dictSet items newKey w

/-- Unfolding `flattenItems` one entry at a time. -/
lemma flattenItems_cons (fs lii k parent : String) (v : Value) (d : VDict)
    (items : List (String × Value)) :
    flattenItems fs lii (.cons k v d) parent items =
      flattenItems fs lii d parent (flattenStep fs lii parent items k v) := by
  cases v with
  | pyList elems => simp only [flattenItems, flattenStep]; split <;> rfl
  | _ => rfl

/-- A field holding an empty dict leaves the accumulator unchanged. -/
lemma flattenStep_empty_dict (fs lii parent k : String) (items : List (String × Value)) :
    flattenStep fs lii parent items k (.pyDict .nil) = items := rfl

/-- A field holding an empty list leaves the accumulator unchanged. -/
lemma flattenStep_empty_list (fs lii parent k : String) (items : List (String × Value)) :
    flattenStep fs lii parent items k (.pyList .nil) = items := rfl

/-- `flattenItems` over a concatenation of entry lists runs the first
part, then the second over its result. -/
lemma flattenItems_ofList_append (fs lii parent : String) :
    ∀ (pre post : List (String × Value)) (items : List (String × Value)),
      flattenItems fs lii (VDict.ofList (pre ++ post)) parent items =
        flattenItems fs lii (VDict.ofList post) parent
          (flattenItems fs lii (VDict.ofList pre) parent items) := by
  intro pre
  induction pre with
  | nil => intro post items; rfl
  | cons hd tl ih =>
    intro post items
    simp only [List.cons_append, VDict.ofList, flattenItems_cons]
    exact ih post _

/-- Claim C8: a field holding an empty dict or an empty list
contributes no key at all to `flatten_dict`'s output; in particular
flattening the non-empty inputs with a single such field returns the
empty map. -/
theorem flatten_empty_containers_contribute_nothing :
    (∀ (fs lii k : String) (pre post : List (String × Value)),
      flatten_dict (VDict.ofList (pre ++ (k, Value.pyDict .nil) :: post)) fs lii =
        flatten_dict (VDict.ofList (pre ++ post)) fs lii) ∧
    (∀ (fs lii k : String) (pre post : List (String × Value)),
      flatten_dict (VDict.ofList (pre ++ (k, Value.pyList .nil) :: post)) fs lii =
        flatten_dict (VDict.ofList (pre ++ post)) fs lii) ∧
    flatten_dict (VDict.ofList [("a", Value.pyDict .nil)]) "." "#%s" = [] ∧
    flatten_dict (VDict.ofList [("a", Value.pyList .nil)]) "." "#%s" = [] ∧
    VDict.ofList [("a", Value.pyDict .nil)] ≠ .nil := by
  refine ⟨?_, ?_, by decide, by decide, by decide⟩
  · intro fs lii k pre post
    unfold flatten_dict
    rw [flattenItems_ofList_append]
    have h : VDict.ofList ((k, Value.pyDict .nil) :: post) =
        .cons k (Value.pyDict .nil) (VDict.ofList post) := rfl
    rw [h, flattenItems_cons, flattenStep_empty_dict]
    exact (flattenItems_ofList_append fs lii "" pre post []).symm
  · intro fs lii k pre post
    unfold flatten_dict
    rw [flattenItems_ofList_append]
    have h : VDict.ofList ((k, Value.pyList .nil) :: post) =
        .cons k (Value.pyList .nil) (VDict.ofList post) := rfl
    rw [h, flattenItems_cons, flattenStep_empty_list]
    exact (flattenItems_ofList_append fs lii "" pre post []).symm

/-! ### Claim C4: unknown operators fail closed -/

/-- `contains` on string lists agrees with membership. -/
lemma contains_iff_mem_str (s : List String) (k : String) : s.contains k = true ↔ k ∈ s := by
  induction s with
  | nil => simp
  | cons a t ih =>
    simp only [List.contains_cons, Bool.or_eq_true, beq_iff_eq, List.mem_cons, ih]

/-- Membership after a set insertion. -/
lemma mem_setAdd (s : List String) (j k : String) : k ∈ setAdd s j ↔ k ∈ s ∨ k = j := by
  unfold setAdd
  by_cases h : s.contains j = true
  · rw [if_pos h]
    constructor
    · exact Or.inl
    · rintro (hk | rfl)
      · exact hk
      · exact (contains_iff_mem_str s k).mp h
  · rw [if_neg h]
    simp [List.mem_append]

/-- `operate` with an operator outside `OPERATOR_MAP` returns `False`
without raising, whatever the field, data and query value. -/
lemma operate_unknown (d : DictSearchQuery) (opname field : String)
    (data : List (String × Value)) (q : Value)
    (h : OPERATOR_KEYS.contains opname = false) :
    d.operate opname field data q = .ok false := by
  unfold DictSearchQuery.operate
  cases lookupValue data field with
  | none => rfl
  | some v =>
    have hn : ¬ (OPERATOR_KEYS.contains opname = true) := by
      rw [h]; exact Bool.false_ne_true
    show (if OPERATOR_KEYS.contains opname = true then applyOp opname v q
          else Except.ok false) = Except.ok false
    rw [if_neg hn]

/-- The inner loop only ever records its own query key. -/
lemma execInner_mks_grow (d : DictSearchQuery) (flat : List (String × Value))
    (qk qm qo : String) (qv : Value) :
    ∀ (rest mf : List (String × Value)) (mks : List String)
      (mf' : List (String × Value)) (mks' : List String),
      execInner d flat qk qm qo qv rest mf mks = .ok (mf', mks') →
      ∀ k, k ∈ mks' → k ∈ mks ∨ k = qk := by
  intro rest
  induction rest with
  | nil =>
    intro mf mks mf' mks' hrun k hk
    simp only [execInner] at hrun
    cases hrun
    exact Or.inl hk
  | cons p rest ih =>
    intro mf mks mf' mks' hrun k hk
    obtain ⟨nk, v⟩ := p
    simp only [execInner] at hrun
    by_cases hm : d.matchKey qm nk = true
    · rw [if_pos hm] at hrun
      cases hop : d.operate qo nk flat qv with
      | error e => rw [hop] at hrun; cases hrun
      | ok b =>
        rw [hop] at hrun
        cases b
        · exact ih mf mks mf' mks' hrun k hk
        · have := ih _ _ mf' mks' hrun k hk
          rcases this with hin | hqk
          · rcases (mem_setAdd mks qk k).mp hin with h1 | h2
            · exact Or.inl h1
            · exact Or.inr h2
          · exact Or.inr hqk
    · rw [if_neg hm] at hrun
      exact ih mf mks mf' mks' hrun k hk

/-- With an operator outside `OPERATOR_MAP`, the inner loop records
nothing. -/
lemma execInner_unknown_op (d : DictSearchQuery) (flat : List (String × Value))
    (qk qm qo : String) (qv : Value)
    (hop : OPERATOR_KEYS.contains qo = false) :
    ∀ (rest mf : List (String × Value)) (mks : List String)
      (mf' : List (String × Value)) (mks' : List String),
      execInner d flat qk qm qo qv rest mf mks = .ok (mf', mks') → mks' = mks := by
  intro rest
  induction rest with
  | nil =>
    intro mf mks mf' mks' hrun
    simp only [execInner] at hrun
    cases hrun
    rfl
  | cons p rest ih =>
    intro mf mks mf' mks' hrun
    obtain ⟨nk, v⟩ := p
    simp only [execInner] at hrun
    by_cases hm : d.matchKey qm nk = true
    · rw [if_pos hm, operate_unknown d qo nk flat qv hop] at hrun
      exact ih mf mks mf' mks' hrun
    · rw [if_neg hm] at hrun
      exact ih mf mks mf' mks' hrun

/-- If some query key carries an unknown operator suffix, the outer
loop never records that key. -/
lemma execOuter_unknown_key_unmatched (d : DictSearchQuery) (flat : List (String × Value))
    (qk : String) (hop : OPERATOR_KEYS.contains (splitQueryKey qk).2 = false) :
    ∀ (qlist mf : List (String × Value)) (mks : List String)
      (mf' : List (String × Value)) (mks' : List String),
      execOuter d flat qlist mf mks = .ok (mf', mks') →
      qk ∉ mks → qk ∉ mks' := by
  intro qlist
  induction qlist with
  | nil =>
    intro mf mks mf' mks' hrun hnot
    simp only [execOuter] at hrun
    cases hrun
    exact hnot
  | cons e qlist ih =>
    intro mf mks mf' mks' hrun hnot
    obtain ⟨qk', qv'⟩ := e
    simp only [execOuter] at hrun
    cases hinner : execInner d flat qk' (splitQueryKey qk').1 (splitQueryKey qk').2 qv' flat mf mks with
    | error e => rw [hinner] at hrun; cases hrun
    | ok pr =>
      obtain ⟨mf₁, mks₁⟩ := pr
      rw [hinner] at hrun
      by_cases heq : qk' = qk
      · subst heq
        have hmks := execInner_unknown_op d flat qk' (splitQueryKey qk').1
          (splitQueryKey qk').2 qv' hop flat mf mks mf₁ mks₁ hinner
        rw [hmks] at hrun
        exact ih mf₁ mks mf' mks' hrun hnot
      · have hq : qk ∉ mks₁ := by
          intro hk
          rcases execInner_mks_grow d flat qk' (splitQueryKey qk').1
            (splitQueryKey qk').2 qv' flat mf mks mf₁ mks₁ hinner qk hk with h1 | h2
          · exact hnot h1
          · exact heq h2.symm
        exact ih mf₁ mks₁ mf' mks' hrun hq

/-- Claim C4: a pattern-key whose operator suffix is outside the
closed operator table never matches: `operate` returns `False` for it
without raising, and `execute` — whenever it returns at all — returns
the empty map for a query containing such a key. -/
theorem unknown_operator_fails_closed :
    (∀ (d : DictSearchQuery) (opname field : String)
       (data : List (String × Value)) (q : Value),
      OPERATOR_KEYS.contains opname = false →
      d.operate opname field data q = .ok false) ∧
    (∀ (d : DictSearchQuery) (data : VDict) (fs lii qk : String) (qv : Value)
       (r : List (String × Value)),
      (qk, qv) ∈ d.query →
      OPERATOR_KEYS.contains (splitQueryKey qk).2 = false →
      d.execute data fs lii = .ok r → r = []) := by
  constructor
  · intro d opname field data q h
    exact operate_unknown d opname field data q h
  · intro d data fs lii qk qv r hmem hop hexec
    unfold DictSearchQuery.execute at hexec
    cases hout : execOuter d (flatten_dict data fs lii) d.query [] [] with
    | error e => rw [hout] at hexec; cases hexec
    | ok pr =>
      obtain ⟨mf, mks⟩ := pr
      rw [hout] at hexec
      have hqk_not : qk ∉ mks :=
        execOuter_unknown_key_unmatched d (flatten_dict data fs lii) qk hop
          d.query [] [] mf mks hout (by simp)
      have hqk_in : qk ∈ d.query.map Prod.fst :=
        List.mem_map.mpr ⟨(qk, qv), hmem, rfl⟩
      have hall : (d.query.map Prod.fst).all (fun k => mks.contains k) = false := by
        rw [List.all_eq_false]
        exact ⟨qk, hqk_in, fun hc => hqk_not ((contains_iff_mem_str mks qk).mp hc)⟩
      have hset : sameStrSet mks (d.query.map Prod.fst) = false := by
        unfold sameStrSet
        rw [hall, Bool.and_false]
      simp only [hset, Bool.false_eq_true, if_false] at hexec
      exact (Except.ok.inj hexec.symm)

/-- Claim C4 witness: the operator name `bogus` is outside the table;
`operate` returns `False` for it, and `execute` on the query
`\x7b'a$bogus': 1\x7d` over `\x7b'a': 1\x7d` returns the empty map. -/
theorem unknown_operator_fails_closed_witness :
    (DictSearchQuery.mk [("a$bogus", .pyInt 1)] true true).operate "bogus" "a"
        [("a", .pyInt 1)] (.pyInt 1) = .ok false ∧
    ([] : List (String × Value)) = [] :=
  ⟨unknown_operator_fails_closed.1 _ "bogus" "a" _ _ (by decide),
   unknown_operator_fails_closed.2 (DictSearchQuery.mk [("a$bogus", .pyInt 1)] true true)
     (VDict.ofList [("a", .pyInt 1)]) "." "#%s" "a$bogus" (.pyInt 1) []
     (by decide) (by decide) (by decide)⟩

/-! ### Claim C10: `save_tree` frame conditions -/

/-- Looking up the id just written returns the written entry. -/
lemma lookupEntry_entrySet_self (s : List (String × TreeEntry)) (k : String) (e : TreeEntry) :
    lookupEntry (entrySet s k e) k = some e := by
  induction s with
  | nil => simp [entrySet, lookupEntry]
  | cons p rest ih =>
    obtain ⟨j, w⟩ := p
    by_cases h : j = k
    · subst h; simp [entrySet, lookupEntry]
    · simp [entrySet, lookupEntry, h, ih]

/-- Claim C10: saving over an existing `tree_id` keeps that entry's
`created_at` and `cursor_path`, keeps its `schema` when no new schema
is supplied (and takes the supplied one otherwise), and replaces
`data`, `children_field`, `label_field`, `count`, `top_labels` and
`updated_at`; saving with an unknown supplied id, or with no id (where
the fresh uuid is used), writes an entry with `created_at = now` and
an empty `cursor_path`, under an id not present in the prior store. -/
theorem save_tree_preserves_and_replaces
    (store : List (String × TreeEntry)) (data : VDict) (cf : String)
    (lf : Option String) (id : String) (schemaArg : Option Value) (now freshId : String) :
    (∀ e : TreeEntry, lookupEntry store id = some e →
      lookupEntry (save_tree store data cf lf (some id) schemaArg now freshId).1 id =
        some ⟨data, cf, lf, count_nodes (.pyDict data) cf,
          top_labels (.pyDict data) cf lf, e.cursor_path,
          (if schemaArg = none then e.schema else schemaArg), e.created_at, now⟩ ∧
      (save_tree store data cf lf (some id) schemaArg now freshId).2 =
        ⟨id, e.created_at, now, count_nodes (.pyDict data) cf,
          top_labels (.pyDict data) cf lf, e.cursor_path,
          (if schemaArg = none then e.schema else schemaArg)⟩) ∧
    (lookupEntry store id = none →
      lookupEntry (save_tree store data cf lf (some id) schemaArg now freshId).1 id =
        some ⟨data, cf, lf, count_nodes (.pyDict data) cf,
          top_labels (.pyDict data) cf lf, [], schemaArg, now, now⟩ ∧
      (save_tree store data cf lf (some id) schemaArg now freshId).2 =
        ⟨id, now, now, count_nodes (.pyDict data) cf,
          top_labels (.pyDict data) cf lf, [], schemaArg⟩) ∧
    (lookupEntry store freshId = none →
      (save_tree store data cf lf none schemaArg now freshId).2 =
        ⟨freshId, now, now, count_nodes (.pyDict data) cf,
          top_labels (.pyDict data) cf lf, [], schemaArg⟩ ∧
      lookupEntry store
        (save_tree store data cf lf none schemaArg now freshId).2.tree_id = none ∧
      lookupEntry (save_tree store data cf lf none schemaArg now freshId).1 freshId =
        some ⟨data, cf, lf, count_nodes (.pyDict data) cf,
          top_labels (.pyDict data) cf lf, [], schemaArg, now, now⟩) := by
  refine ⟨?_, ?_, ?_⟩
  · intro e hlook
    constructor
    · simp only [save_tree, hlook]
      exact lookupEntry_entrySet_self store id _
    · simp only [save_tree, hlook]
  · intro hlook
    constructor
    · simp only [save_tree, hlook]
      exact lookupEntry_entrySet_self store id _
    · simp only [save_tree, hlook]
  · intro hfresh
    refine ⟨by simp only [save_tree], ?_, ?_⟩
    · simp only [save_tree]
      exact hfresh
    · simp only [save_tree]
      exact lookupEntry_entrySet_self store freshId _

/-- Claim C10 witness: a one-entry store saved over with the same id
keeps `created_at` `"t0"` and `cursor_path` `[1]` and the old schema,
while replacing the data and recomputing the counts; a save with no id
under fresh uuid `"u1"` creates the entry anew. -/
theorem save_tree_preserves_and_replaces_witness :
    lookupEntry
      (save_tree
        [("id1", ⟨VDict.ofList [("title", .pyStr "old")], "sections", some "title",
          1, [], [1], some (.pyStr "sch"), "t0", "t0"⟩)]
        (VDict.ofList [("title", .pyStr "new")]) "sections" (some "title")
        (some "id1") none "t1" "u0").1 "id1" =
      some ⟨VDict.ofList [("title", .pyStr "new")], "sections", some "title",
        1, [], [1], some (.pyStr "sch"), "t0", "t1"⟩ ∧
    (save_tree ([] : List (String × TreeEntry))
        (VDict.ofList [("title", .pyStr "new")]) "sections" (some "title")
        none none "t1" "u1").2 =
      ⟨"u1", "t1", "t1", 1, [], [], none⟩ := by
  constructor
  · have h := (save_tree_preserves_and_replaces
      [("id1", ⟨VDict.ofList [("title", .pyStr "old")], "sections", some "title",
        1, [], [1], some (.pyStr "sch"), "t0", "t0"⟩)]
      (VDict.ofList [("title", .pyStr "new")]) "sections" (some "title")
      "id1" none "t1" "u0").1
      ⟨VDict.ofList [("title", .pyStr "old")], "sections", some "title",
        1, [], [1], some (.pyStr "sch"), "t0", "t0"⟩ (by decide)
    rw [h.1]
    decide
  · have h := (save_tree_preserves_and_replaces
      ([] : List (String × TreeEntry))
      (VDict.ofList [("title", .pyStr "new")]) "sections" (some "title")
      "unused" none "t1" "u1").2.2 (by decide)
    rw [h.1]
    decide

/-! ### Flat-map algebra

Lemmas about `dictSet`/`dictUpdate` used to relate the accumulator-
threaded `flatten_dict` to its specification and to characterise
`execute`'s matched-fields map. -/

/-- Keys are pairwise distinct (every dict the embedded code builds
satisfies this). -/
def NodupKeys (l : List (String × Value)) : Prop := (l.map Prod.fst).Nodup

/-- Lookup after a set. -/
lemma lookupValue_dictSet (a : List (String × Value)) (k j : String) (v : Value) :
    lookupValue (dictSet a k v) j = if k = j then some v else lookupValue a j := by
  induction a with
  | nil => simp [dictSet, lookupValue]
  | cons p rest ih =>
    obtain ⟨m, w⟩ := p
    by_cases hmk : m = k
    · subst hmk
      by_cases hkj : m = j
      · subst hkj; simp [dictSet, lookupValue]
      · simp [dictSet, lookupValue, hkj]
    · by_cases hmj : m = j
      · subst hmj
        have : ¬ k = m := fun h => hmk h.symm
        simp [dictSet, lookupValue, hmk, this]
      · simp [dictSet, lookupValue, hmk, hmj, ih]

/-- The keys after a set: unchanged when present, appended when new. -/
lemma keys_dictSet (a : List (String × Value)) (k : String) (v : Value) :
    (dictSet a k v).map Prod.fst =
      if k ∈ a.map Prod.fst then a.map Prod.fst else a.map Prod.fst ++ [k] := by
  induction a with
  | nil => simp [dictSet]
  | cons p rest ih =>
    obtain ⟨m, w⟩ := p
    by_cases hmk : m = k
    · subst hmk; simp [dictSet]
    · have : ¬ k = m := fun h => hmk h.symm
      by_cases hk : k ∈ rest.map Prod.fst <;>
        simp [dictSet, hmk, this, hk, ih]

/-- The key just set is present. -/
lemma mem_keys_dictSet (a : List (String × Value)) (k : String) (v : Value) :
    k ∈ (dictSet a k v).map Prod.fst := by
  rw [keys_dictSet]
  by_cases hk : k ∈ a.map Prod.fst <;> simp [hk]

/-- Setting preserves duplicate-freeness of keys. -/
lemma nodupKeys_dictSet (a : List (String × Value)) (k : String) (v : Value)
    (h : NodupKeys a) : NodupKeys (dictSet a k v) := by
  unfold NodupKeys at *
  rw [keys_dictSet]
  by_cases hk : k ∈ a.map Prod.fst
  · simpa [hk]
  · simp [hk, List.nodup_append, h]

/-- `dictUpdate` over a cons. -/
lemma dictUpdate_cons (a : List (String × Value)) (k : String) (v : Value)
    (b : List (String × Value)) :
    dictUpdate a ((k, v) :: b) = dictUpdate (dictSet a k v) b := rfl

/-- `dictUpdate` over an append. -/
lemma dictUpdate_append (a b c : List (String × Value)) :
    dictUpdate a (b ++ c) = dictUpdate (dictUpdate a b) c := by
  simp [dictUpdate, List.foldl_append]

/-- Updating preserves duplicate-freeness of keys. -/
lemma nodupKeys_dictUpdate (b : List (String × Value)) :
    ∀ a, NodupKeys a → NodupKeys (dictUpdate a b) := by
  induction b with
  | nil => intro a h; exact h
  | cons p rest ih =>
    intro a h
    obtain ⟨k, v⟩ := p
    rw [dictUpdate_cons]
    exact ih _ (nodupKeys_dictSet a k v h)

/-- Setting the same key twice keeps only the last value. -/
lemma dictSet_dictSet (a : List (String × Value)) (k : String) (w v : Value) :
    dictSet (dictSet a k w) k v = dictSet a k v := by
  induction a with
  | nil => simp [dictSet]
  | cons p rest ih =>
    obtain ⟨m, x⟩ := p
    by_cases hmk : m = k
    · subst hmk; simp [dictSet]
    · simp [dictSet, hmk, ih]

/-- Sets at distinct keys commute when the second key is already
present (its position is fixed, so no append-order is at stake). -/
lemma dictSet_comm_of_mem (a : List (String × Value)) (j k : String) (u v : Value)
    (hjk : j ≠ k) (hk : k ∈ a.map Prod.fst) :
    dictSet (dictSet a j u) k v = dictSet (dictSet a k v) j u := by
  induction a with
  | nil => simp at hk
  | cons p rest ih =>
    obtain ⟨m, x⟩ := p
    by_cases hmj : m = j
    · subst hmj
      simp [dictSet, hjk]
    · by_cases hmk : m = k
      · subst hmk
        have : ¬ m = j := fun h => hmj h
        simp [dictSet, hmj, this]
      · have hk' : k ∈ rest.map Prod.fst := by
          rcases List.mem_cons.mp hk with h1 | h2
          · exact absurd h1.symm hmk
          · exact h2
        simp [dictSet, hmj, hmk, ih hk']

/-- A set at a key already present commutes past an update that does
not touch that key. -/
lemma dictSet_dictUpdate_of_not_mem (b : List (String × Value)) :
    ∀ (a : List (String × Value)) (k : String) (v : Value),
      k ∈ a.map Prod.fst → k ∉ b.map Prod.fst →
      dictSet (dictUpdate a b) k v = dictUpdate (dictSet a k v) b := by
  induction b with
  | nil => intro a k v _ _; rfl
  | cons p rest ih =>
    intro a k v hka hkb
    obtain ⟨j, u⟩ := p
    have hjk : j ≠ k := by
      intro h
      exact hkb (by simp [h])
    have hkb' : k ∉ rest.map Prod.fst := fun h => hkb (by simp [h])
    rw [dictUpdate_cons, dictUpdate_cons]
    have hka' : k ∈ (dictSet a j u).map Prod.fst := by
      rw [keys_dictSet]
      by_cases hj : j ∈ a.map Prod.fst <;> simp [hj, hka]
    rw [ih (dictSet a j u) k v hka' hkb']
    rw [dictSet_comm_of_mem a j k u v hjk hka]

/-- Updating by a set list equals updating then setting (for
duplicate-free keys on the right operand). -/
lemma dictUpdate_dictSet (b : List (String × Value)) :
    ∀ (a : List (String × Value)) (k : String) (v : Value), NodupKeys b →
      dictUpdate a (dictSet b k v) = dictSet (dictUpdate a b) k v := by
  induction b with
  | nil => intro a k v _; rfl
  | cons p rest ih =>
    intro a k v hb
    obtain ⟨j, w⟩ := p
    have hrest : NodupKeys rest := by
      unfold NodupKeys at hb ⊢
      exact (List.nodup_cons.mp hb).2
    by_cases hjk : j = k
    · subst hjk
      have hnot : j ∉ rest.map Prod.fst := by
        unfold NodupKeys at hb
        exact (List.nodup_cons.mp hb).1
      have h1 : dictSet ((j, w) :: rest) j v = (j, v) :: rest := by simp [dictSet]
      rw [h1, dictUpdate_cons, dictUpdate_cons]
      rw [dictSet_dictUpdate_of_not_mem rest (dictSet a j w) j v
        (mem_keys_dictSet a j w) hnot]
      rw [dictSet_dictSet]
    · have h1 : dictSet ((j, w) :: rest) k v = (j, w) :: dictSet rest k v := by
        simp [dictSet, hjk]
      rw [h1, dictUpdate_cons, dictUpdate_cons]
      exact ih (dictSet a j w) k v hrest

/-- Update is an action: updating by a merge is updating twice (for
duplicate-free keys of the middle operand). -/
lemma dictUpdate_assoc (c : List (String × Value)) :
    ∀ (a b : List (String × Value)), NodupKeys b →
      dictUpdate a (dictUpdate b c) = dictUpdate (dictUpdate a b) c := by
  induction c with
  | nil => intro a b _; rfl
  | cons p rest ih =>
    intro a b hb
    obtain ⟨k, v⟩ := p
    rw [dictUpdate_cons, dictUpdate_cons]
    rw [ih a (dictSet b k v) (nodupKeys_dictSet b k v hb)]
    rw [dictUpdate_dictSet b a k v hb]

/-- Updating by an internally merged list is plain updating (for a
duplicate-free base). -/
lemma dictUpdate_dictUpdate_nil (a c : List (String × Value)) :
    dictUpdate a (dictUpdate [] c) = dictUpdate a c := by
  have h := dictUpdate_assoc c a [] (by simp [NodupKeys])
  simpa using h

/-! ### Claim C7: `flatten_dict` refines the spec's recursion -/

mutual
/-- Spec-side entry sequence of a dict's fields: each field holding a
nested mapping contributes its recursive entries under
`parent+sep+key`; each list of mappings contributes per-index entries;
any other value contributes itself verbatim under its full key. -/
def specEntries (fs lii : String) : VDict → String → List (String × Value)
  | .nil, _ => []
  | .cons k v rest, parent =>
    specValEntries fs lii v (if parent = "" then k else parent ++ fs ++ k) ++
      specEntries fs lii rest parent

/-- Spec-side entries contributed by one field value under its key. -/
def specValEntries (fs lii : String) : Value → String → List (String × Value)
  | .pyDict kvs, key => specEntries fs lii kvs key
  | .pyList vs, key =>
    if vs.allDict then specListEntries fs lii vs key 0 else [(key, .pyList vs)]
  | v, key => [(key, v)]

/-- Spec-side entries of a list of mappings, one index at a time. -/
def specListEntries (fs lii : String) : VList → String → Nat → List (String × Value)
  | .nil, _, _ => []
  | .cons e rest, key, i =>
    specValEntries fs lii e (key ++ pyFormatS lii (toString i)) ++
      specListEntries fs lii rest key (i + 1)
end

/-- The leaf map the spec defines: the entry sequence folded into a
map (later contributions to the same FlatKey overwrite earlier ones,
as in any map). -/
def specFlattenMap (data : VDict) (fs : String := ".") (lii : String := "#%s") :
    List (String × Value) :=
  dictUpdate [] (specEntries fs lii data "")

mutual
/-- `flattenItems` updates its accumulator by exactly the spec's entry
sequence. -/
theorem flattenItems_eq_spec (fs lii : String) :
    ∀ (d : VDict) (parent : String) (items : List (String × Value)),
      flattenItems fs lii d parent items = dictUpdate items (specEntries fs lii d parent)
  | .nil, parent, items => rfl
  | .cons k v rest, parent, items => by
    rw [flattenItems_cons]
    cases v with
    | pyDict kvs =>
      show flattenItems fs lii rest parent
          (dictUpdate items
            (flattenItems fs lii kvs (if parent = "" then k else parent ++ fs ++ k) [])) =
        dictUpdate items (specEntries fs lii (.cons k (.pyDict kvs) rest) parent)
      rw [flattenItems_eq_spec fs lii kvs, flattenItems_eq_spec fs lii rest,
        dictUpdate_dictUpdate_nil]
      show dictUpdate (dictUpdate items
          (specEntries fs lii kvs (if parent = "" then k else parent ++ fs ++ k))) _ = _
      rw [← dictUpdate_append]
      rfl
    | pyList vs =>
      by_cases hall : vs.allDict = true
      · show flattenItems fs lii rest parent
            (if vs.allDict = true then
              flattenListElems fs lii vs (if parent = "" then k else parent ++ fs ++ k) 0 items
             else
              dictSet items (if parent = "" then k else parent ++ fs ++ k) (.pyList vs)) =
          dictUpdate items (specEntries fs lii (.cons k (.pyList vs) rest) parent)
        rw [if_pos hall]
        rw [flattenListElems_eq_spec fs lii vs hall, flattenItems_eq_spec fs lii rest,
          ← dictUpdate_append]
        show _ = dictUpdate items
          (specValEntries fs lii (.pyList vs) (if parent = "" then k else parent ++ fs ++ k) ++
            specEntries fs lii rest parent)
        rw [show specValEntries fs lii (.pyList vs)
            (if parent = "" then k else parent ++ fs ++ k) =
          specListEntries fs lii vs (if parent = "" then k else parent ++ fs ++ k) 0 from by
            simp [specValEntries, hall]]
      · show flattenItems fs lii rest parent
            (if vs.allDict = true then
              flattenListElems fs lii vs (if parent = "" then k else parent ++ fs ++ k) 0 items
             else
              dictSet items (if parent = "" then k else parent ++ fs ++ k) (.pyList vs)) =
          dictUpdate items (specEntries fs lii (.cons k (.pyList vs) rest) parent)
        rw [if_neg hall]
        rw [flattenItems_eq_spec fs lii rest]
        show _ = dictUpdate items
          (specValEntries fs lii (.pyList vs) (if parent = "" then k else parent ++ fs ++ k) ++
            specEntries fs lii rest parent)
        rw [show specValEntries fs lii (.pyList vs)
            (if parent = "" then k else parent ++ fs ++ k) =
          [((if parent = "" then k else parent ++ fs ++ k), Value.pyList vs)] from by
            simp [specValEntries, hall]]
        rfl
    | pyNone =>
      rw [flattenItems_eq_spec fs lii rest]
      rfl
    | pyBool b =>
      rw [flattenItems_eq_spec fs lii rest]
      rfl
    | pyInt n =>
      rw [flattenItems_eq_spec fs lii rest]
      rfl
    | pyStr str =>
      rw [flattenItems_eq_spec fs lii rest]
      rfl

/-- `flattenListElems` updates its accumulator by exactly the spec's
per-index entry sequence, for a list of mappings. -/
theorem flattenListElems_eq_spec (fs lii : String) :
    ∀ (vs : VList), vs.allDict = true →
      ∀ (key : String) (i : Nat) (items : List (String × Value)),
        flattenListElems fs lii vs key i items =
          dictUpdate items (specListEntries fs lii vs key i)
  | .nil, _, key, i, items => rfl
  | .cons e rest, hall, key, i, items => by
    have hsplit := hall
    simp only [VList.allDict, Bool.and_eq_true] at hsplit
    obtain ⟨hd, hrest⟩ := hsplit
    cases e with
    | pyDict kvs =>
      show flattenListElems fs lii rest key (i + 1)
          (dictUpdate items (flattenItems fs lii kvs (key ++ pyFormatS lii (toString i)) [])) =
        dictUpdate items (specListEntries fs lii (.cons (.pyDict kvs) rest) key i)
      rw [flattenItems_eq_spec fs lii kvs, flattenListElems_eq_spec fs lii rest hrest,
        dictUpdate_dictUpdate_nil, ← dictUpdate_append]
      rfl
    | pyNone => simp [Value.isDict] at hd
    | pyBool b => simp [Value.isDict] at hd
    | pyInt n => simp [Value.isDict] at hd
    | pyStr str => simp [Value.isDict] at hd
    | pyList l => simp [Value.isDict] at hd
end

/-- Claim C7: `flatten_dict` produces exactly the leaf map the spec
defines recursively (nested mappings prefixed with the separator,
lists of mappings prefixed per index, every other value verbatim
under its full key). -/
theorem flatten_dict_eq_specFlattenMap (data : VDict) (fs lii : String) :
    flatten_dict data fs lii = specFlattenMap data fs lii := by
  unfold flatten_dict specFlattenMap
  exact flattenItems_eq_spec fs lii data "" []

/-! ### Claim C1: the all-or-nothing union contract of `execute`

The claim is settled against a pure rendition of the scan
(`execPure`), shown equal to `execute` whenever no operator
application raises, and a spec-side map (`specExecute`) built exactly
as the claim reads: keep every flattened pair whose key matches some
declared pattern-key and whose value satisfies that pattern-key's
operator, then return the union only when every declared pattern-key
found at least one such pair. -/

/-- The `ok true` test on a fallible boolean. -/
def isOkTrue : Except PyErr Bool → Bool
  | .ok b => b
  | .error _ => false

/-- The success (non-raising) test on a fallible boolean. -/
def exOk : Except PyErr Bool → Bool
  | .ok _ => true
  | .error _ => false

/-- The per-pair acceptance condition of the inner loop, as the code
evaluates it (match on the key, then `operate` over the flattened
data). -/
def innerCond (d : DictSearchQuery) (flat : List (String × Value)) (q_main q_op : String)
    (q_value : Value) (p : String × Value) : Bool :=
  d.matchKey q_main p.1 && isOkTrue (d.operate q_op p.1 flat q_value)

/-- The inner loop of `execute`, with the error monad stripped. -/
def execInnerPure (d : DictSearchQuery) (flat : List (String × Value))
    (q_key q_main q_op : String) (q_value : Value) :
    List (String × Value) → List (String × Value) × List String →
      List (String × Value) × List String
  | [], acc => acc
  | p :: rest, acc =>
    execInnerPure d flat q_key q_main q_op q_value rest
      (if innerCond d flat q_main q_op q_value p then
        (dictSet acc.1 p.1 p.2, setAdd acc.2 q_key)
       else acc)

/-- The outer loop of `execute`, with the error monad stripped. -/
def execOuterPure (d : DictSearchQuery) (flat : List (String × Value)) :
    List (String × Value) → List (String × Value) × List String →
      List (String × Value) × List String
  | [], acc => acc
  | (q_key, q_value) :: rest, acc =>
    execOuterPure d flat rest
      (execInnerPure d flat q_key (splitQueryKey q_key).1 (splitQueryKey q_key).2
        q_value flat acc)

/-- No operator application performed during the scan raises: for
every flattened pair and every query entry, if the key matches then
`operate` returns normally. -/
def scanOKb (d : DictSearchQuery) (data : VDict) (fs lii : String) : Bool :=
  (flatten_dict data fs lii).all (fun p => d.query.all (fun e =>
    !(d.matchKey (splitQueryKey e.1).1 p.1) ||
      exOk (d.operate (splitQueryKey e.1).2 p.1 (flatten_dict data fs lii) e.2)))

/-- The result of `execute` with the error monad stripped. -/
def execPure (d : DictSearchQuery) (data : VDict) (fs lii : String) :
    List (String × Value) :=
  if sameStrSet (execOuterPure d (flatten_dict data fs lii) d.query ([], [])).2
      (d.query.map Prod.fst) then
    (execOuterPure d (flatten_dict data fs lii) d.query ([], [])).1
  else []

/-- The inner loop equals its pure rendition when no visited operator
application raises. -/
lemma execInner_eq_pure (d : DictSearchQuery) (flat : List (String × Value))
    (qk qm qo : String) (qv : Value) :
    ∀ (rest mf : List (String × Value)) (mks : List String),
      (∀ p ∈ rest, d.matchKey qm p.1 = true → exOk (d.operate qo p.1 flat qv) = true) →
      execInner d flat qk qm qo qv rest mf mks =
        .ok (execInnerPure d flat qk qm qo qv rest (mf, mks)) := by
  intro rest
  induction rest with
  | nil => intro mf mks _; rfl
  | cons p rest ih =>
    intro mf mks herr
    obtain ⟨nk, v⟩ := p
    have herr' : ∀ p ∈ rest, d.matchKey qm p.1 = true → exOk (d.operate qo p.1 flat qv) = true :=
      fun p hp => herr p (List.mem_cons_of_mem _ hp)
    by_cases hm : d.matchKey qm nk = true
    · cases hop : d.operate qo nk flat qv with
      | error e =>
        have := herr (nk, v) (List.mem_cons_self _ _) hm
        rw [hop] at this
        cases this
      | ok b =>
        show execInner d flat qk qm qo qv ((nk, v) :: rest) mf mks = _
        simp only [execInner, if_pos hm, hop]
        cases b with
        | true =>
          rw [ih (dictSet mf nk v) (setAdd mks qk) herr']
          simp only [execInnerPure, innerCond, hm, hop, isOkTrue, Bool.and_true]
          rfl
        | false =>
          rw [ih mf mks herr']
          simp only [execInnerPure, innerCond, hm, hop, isOkTrue, Bool.and_false]
          rfl
    · show execInner d flat qk qm qo qv ((nk, v) :: rest) mf mks = _
      simp only [execInner, if_neg hm]
      rw [ih mf mks herr']
      have hc : innerCond d flat qm qo qv (nk, v) = false := by
        simp only [innerCond]
        rw [Bool.eq_false_iff]
        intro hand
        exact hm (Bool.and_elim_left hand)
      simp only [execInnerPure, hc]
      rfl

/-- The outer loop equals its pure rendition when no visited operator
application raises. -/
lemma execOuter_eq_pure (d : DictSearchQuery) (flat : List (String × Value)) :
    ∀ (qlist mf : List (String × Value)) (mks : List String),
      (∀ e ∈ qlist, ∀ p ∈ flat, d.matchKey (splitQueryKey e.1).1 p.1 = true →
        exOk (d.operate (splitQueryKey e.1).2 p.1 flat e.2) = true) →
      execOuter d flat qlist mf mks =
        .ok (execOuterPure d flat qlist (mf, mks)) := by
  intro qlist
  induction qlist with
  | nil => intro mf mks _; rfl
  | cons e qlist ih =>
    intro mf mks herr
    obtain ⟨qk, qv⟩ := e
    have h1 : ∀ p ∈ flat, d.matchKey (splitQueryKey qk).1 p.1 = true →
        exOk (d.operate (splitQueryKey qk).2 p.1 flat qv) = true :=
      fun p hp => herr (qk, qv) (List.mem_cons_self _ _) p hp
    have h2 : ∀ e ∈ qlist, ∀ p ∈ flat, d.matchKey (splitQueryKey e.1).1 p.1 = true →
        exOk (d.operate (splitQueryKey e.1).2 p.1 flat e.2) = true :=
      fun e he => herr e (List.mem_cons_of_mem _ he)
    show execOuter d flat ((qk, qv) :: qlist) mf mks = _
    simp only [execOuter]
    rw [execInner_eq_pure d flat qk (splitQueryKey qk).1 (splitQueryKey qk).2 qv flat mf mks h1]
    show execOuter d flat qlist _ _ = _
    have := ih (execInnerPure d flat qk (splitQueryKey qk).1 (splitQueryKey qk).2 qv flat
      (mf, mks)).1 (execInnerPure d flat qk (splitQueryKey qk).1 (splitQueryKey qk).2 qv flat
      (mf, mks)).2 h2
    rw [this]
    rfl

/-- A successful lookup exhibits membership. -/
lemma mem_of_lookupValue : ∀ (l : List (String × Value)) (k : String) (v : Value),
    lookupValue l k = some v → (k, v) ∈ l := by
  intro l
  induction l with
  | nil => intro k v h; cases h
  | cons p rest ih =>
    intro k v h
    obtain ⟨j, w⟩ := p
    by_cases hjk : j = k
    · subst hjk
      simp only [lookupValue, if_pos rfl] at h
      cases h
      exact List.mem_cons_self _ _
    · simp only [lookupValue, if_neg hjk] at h
      exact List.mem_cons_of_mem _ (ih k v h)

/-- Lookup misses absent keys. -/
lemma lookupValue_eq_none (l : List (String × Value)) (k : String)
    (h : k ∉ l.map Prod.fst) : lookupValue l k = none := by
  induction l with
  | nil => rfl
  | cons p rest ih =>
    obtain ⟨j, w⟩ := p
    have hjk : j ≠ k := by
      intro hj; exact h (by simp [hj])
    have h' : k ∉ rest.map Prod.fst := fun hk => h (by simp [hk])
    simp only [lookupValue, if_neg hjk]
    exact ih h'

/-- On duplicate-free keys, membership determines the lookup. -/
lemma lookupValue_of_mem_nodup : ∀ (l : List (String × Value)) (k : String) (v : Value),
    (k, v) ∈ l → NodupKeys l → lookupValue l k = some v := by
  intro l
  induction l with
  | nil => intro k v h _; cases h
  | cons p rest ih =>
    intro k v hmem hnd
    obtain ⟨j, w⟩ := p
    have hndr : NodupKeys rest := (List.nodup_cons.mp hnd).2
    rcases List.mem_cons.mp hmem with h1 | h2
    · cases h1
      simp [lookupValue]
    · have hjk : j ≠ k := by
        intro hj
        subst hj
        exact (List.nodup_cons.mp hnd).1
          (List.mem_map.mpr ⟨(j, v), h2, rfl⟩)
      simp only [lookupValue, if_neg hjk]
      exact ih k v h2 hndr

/-- The flattened map has duplicate-free keys. -/
lemma flatten_nodupKeys (data : VDict) (fs lii : String) :
    NodupKeys (flatten_dict data fs lii) := by
  unfold flatten_dict
  rw [flattenItems_eq_spec]
  exact nodupKeys_dictUpdate _ [] (by simp [NodupKeys])

/-- `any` respects pointwise agreement on members. -/
lemma any_congr_on_mem {α : Type} (l : List α) (p q : α → Bool)
    (h : ∀ x ∈ l, p x = q x) : l.any p = l.any q := by
  induction l with
  | nil => rfl
  | cons a rest ih =>
    simp only [List.any_cons]
    rw [h a (List.mem_cons_self _ _), ih (fun x hx => h x (List.mem_cons_of_mem _ hx))]

/-- Lookup through the pure inner loop: a pair of the scanned list
that passes the condition ends at its own value; anything else is
looked up in the accumulator. -/
lemma execInnerPure_lookup (d : DictSearchQuery) (flat : List (String × Value))
    (qk qm qo : String) (qv : Value) :
    ∀ (rest : List (String × Value)), NodupKeys rest →
      ∀ (acc : List (String × Value) × List String) (k : String),
        lookupValue (execInnerPure d flat qk qm qo qv rest acc).1 k =
          (match lookupValue rest k with
           | some v => if innerCond d flat qm qo qv (k, v) then some v else lookupValue acc.1 k
           | none => lookupValue acc.1 k) := by
  intro rest
  induction rest with
  | nil => intro _ acc k; rfl
  | cons p rest ih =>
    intro hnd acc k
    obtain ⟨j, w⟩ := p
    have hndr : NodupKeys rest := (List.nodup_cons.mp hnd).2
    have hjrest : j ∉ rest.map Prod.fst := (List.nodup_cons.mp hnd).1
    show lookupValue (execInnerPure d flat qk qm qo qv rest
        (if innerCond d flat qm qo qv (j, w) then
          (dictSet acc.1 j w, setAdd acc.2 qk) else acc)).1 k = _
    rw [ih hndr]
    by_cases hjk : j = k
    · subst hjk
      have hrk : lookupValue rest j = none := lookupValue_eq_none rest j hjrest
      rw [hrk]
      have hck : lookupValue ((j, w) :: rest) j = some w := by simp [lookupValue]
      rw [hck]
      by_cases hc : innerCond d flat qm qo qv (j, w) = true
      · simp [hc, lookupValue_dictSet]
      · simp [hc]
    · have hck : lookupValue ((j, w) :: rest) k = lookupValue rest k := by
        simp [lookupValue, hjk]
      rw [hck]
      have hacc : lookupValue (if innerCond d flat qm qo qv (j, w) then
          (dictSet acc.1 j w, setAdd acc.2 qk) else acc).1 k = lookupValue acc.1 k := by
        by_cases hc : innerCond d flat qm qo qv (j, w) = true
        · rw [if_pos hc]
          show lookupValue (dictSet acc.1 j w) k = _
          rw [lookupValue_dictSet, if_neg hjk]
        · rw [if_neg hc]
      cases hrv : lookupValue rest k with
      | none => simp [hacc]
      | some v => simp [hacc]

/-- Membership in the matched-key set through the pure inner loop. -/
lemma execInnerPure_mks (d : DictSearchQuery) (flat : List (String × Value))
    (qk qm qo : String) (qv : Value) :
    ∀ (rest : List (String × Value)) (acc : List (String × Value) × List String)
      (k : String),
      k ∈ (execInnerPure d flat qk qm qo qv rest acc).2 ↔
        k ∈ acc.2 ∨ (k = qk ∧ rest.any (innerCond d flat qm qo qv) = true) := by
  intro rest
  induction rest with
  | nil =>
    intro acc k
    simp [execInnerPure]
  | cons p rest ih =>
    intro acc k
    show k ∈ (execInnerPure d flat qk qm qo qv rest
        (if innerCond d flat qm qo qv p then
          (dictSet acc.1 p.1 p.2, setAdd acc.2 qk) else acc)).2 ↔ _
    rw [ih]
    by_cases hc : innerCond d flat qm qo qv p = true
    · rw [if_pos hc]
      show k ∈ setAdd acc.2 qk ∨ _ ↔ _
      rw [mem_setAdd]
      simp only [List.any_cons, hc, Bool.true_or]
      tauto
    · rw [if_neg hc]
      have hcf : innerCond d flat qm qo qv p = false := Bool.eq_false_iff.mpr hc
      simp only [List.any_cons, hcf, Bool.false_or]

/-- Whether a query entry found at least one accepted pair, as the
code's condition evaluates it. -/
def keyFoundCode (d : DictSearchQuery) (flat : List (String × Value))
    (e : String × Value) : Bool :=
  flat.any (innerCond d flat (splitQueryKey e.1).1 (splitQueryKey e.1).2 e.2)

/-- Lookup through the pure outer loop: a flattened pair accepted by
some query entry ends at its own value; anything else falls back to
the accumulator. -/
lemma execOuterPure_lookup (d : DictSearchQuery) (flat : List (String × Value))
    (hnd : NodupKeys flat) :
    ∀ (qlist : List (String × Value)) (acc : List (String × Value) × List String)
      (k : String),
      lookupValue (execOuterPure d flat qlist acc).1 k =
        (match lookupValue flat k with
         | some v => if qlist.any (fun e => innerCond d flat (splitQueryKey e.1).1
             (splitQueryKey e.1).2 e.2 (k, v)) then some v else lookupValue acc.1 k
         | none => lookupValue acc.1 k) := by
  intro qlist
  induction qlist with
  | nil =>
    intro acc k
    cases lookupValue flat k <;> simp [execOuterPure]
  | cons e qlist ih =>
    intro acc k
    obtain ⟨qk, qv⟩ := e
    show lookupValue (execOuterPure d flat qlist
        (execInnerPure d flat qk (splitQueryKey qk).1 (splitQueryKey qk).2 qv flat acc)).1 k = _
    rw [ih]
    cases hfv : lookupValue flat k with
    | none =>
      rw [execInnerPure_lookup d flat qk (splitQueryKey qk).1 (splitQueryKey qk).2 qv
        flat hnd acc k, hfv]
    | some v =>
      rw [execInnerPure_lookup d flat qk (splitQueryKey qk).1 (splitQueryKey qk).2 qv
        flat hnd acc k, hfv]
      simp only [List.any_cons]
      by_cases hc : innerCond d flat (splitQueryKey qk).1 (splitQueryKey qk).2 qv (k, v) = true
      · simp [hc]
      · have hcf : innerCond d flat (splitQueryKey qk).1 (splitQueryKey qk).2 qv (k, v) = false :=
          Bool.eq_false_iff.mpr hc
        simp only [hcf, Bool.false_or, Bool.false_eq_true, if_false]

/-- Membership in the matched-key set through the pure outer loop. -/
lemma execOuterPure_mks (d : DictSearchQuery) (flat : List (String × Value)) :
    ∀ (qlist : List (String × Value)) (acc : List (String × Value) × List String)
      (k : String),
      k ∈ (execOuterPure d flat qlist acc).2 ↔
        k ∈ acc.2 ∨ qlist.any (fun e => k == e.1 && keyFoundCode d flat e) = true := by
  intro qlist
  induction qlist with
  | nil => intro acc k; simp [execOuterPure]
  | cons e qlist ih =>
    intro acc k
    obtain ⟨qk, qv⟩ := e
    show k ∈ (execOuterPure d flat qlist
        (execInnerPure d flat qk (splitQueryKey qk).1 (splitQueryKey qk).2 qv flat acc)).2 ↔ _
    rw [ih, execInnerPure_mks]
    simp only [List.any_cons, Bool.or_eq_true, Bool.and_eq_true, beq_iff_eq, keyFoundCode]
    tauto

/-! Spec-side definitions for the union contract, phrased exactly as
the claim reads. -/

/-- A value satisfies a named operator: the operator is in the closed
table and its application returns true. -/
def specSat (opname : String) (v q : Value) : Bool :=
  OPERATOR_KEYS.contains opname && isOkTrue (applyOp opname v q)

/-- A flattened pair is kept for a declared pattern-key: the key
matches the pattern and the pair's value satisfies the pattern-key's
operator. -/
def specPairMatches (d : DictSearchQuery) (qk : String) (qv : Value)
    (p : String × Value) : Bool :=
  d.matchKey (splitQueryKey qk).1 p.1 && specSat (splitQueryKey qk).2 p.2 qv

/-- A declared pattern-key found at least one kept pair. -/
def specKeyFound (d : DictSearchQuery) (flat : List (String × Value))
    (qk : String) (qv : Value) : Bool :=
  flat.any (specPairMatches d qk qv)

/-- Every declared pattern-key found at least one kept pair. -/
def specAllFound (d : DictSearchQuery) (flat : List (String × Value)) : Bool :=
  d.query.all (fun e => specKeyFound d flat e.1 e.2)

/-- The union map: fold every kept pair of the flattened input into a
map. -/
def specUnionGo (d : DictSearchQuery) :
    List (String × Value) → List (String × Value) → List (String × Value)
  | [], acc => acc
  | p :: rest, acc =>
    specUnionGo d rest
      (if d.query.any (fun e => specPairMatches d e.1 e.2 p) then dictSet acc p.1 p.2
       else acc)

/-- The union of all kept FlatKey-to-value pairs. -/
def specUnion (d : DictSearchQuery) (flat : List (String × Value)) :
    List (String × Value) :=
  specUnionGo d flat []

/-- The claim's contract: the full union map when every declared
pattern-key found a match, the empty map otherwise. -/
def specExecute (d : DictSearchQuery) (data : VDict) (fs lii : String) :
    List (String × Value) :=
  if specAllFound d (flatten_dict data fs lii) then
    specUnion d (flatten_dict data fs lii)
  else []

/-- On pairs of the flattened map, the code's acceptance condition is
the claim's: `operate` looks the key up in the flattened data, which
returns the pair's own value. -/
lemma innerCond_eq_specPairMatches (d : DictSearchQuery) (flat : List (String × Value))
    (hnd : NodupKeys flat) (qk : String) (qv : Value) (p : String × Value)
    (hp : p ∈ flat) :
    innerCond d flat (splitQueryKey qk).1 (splitQueryKey qk).2 qv p =
      specPairMatches d qk qv p := by
  obtain ⟨nk, v⟩ := p
  unfold innerCond specPairMatches
  congr 1
  show isOkTrue (d.operate (splitQueryKey qk).2 nk flat qv) = specSat (splitQueryKey qk).2 v qv
  unfold DictSearchQuery.operate specSat
  rw [lookupValue_of_mem_nodup flat nk v hp hnd]
  show isOkTrue (if OPERATOR_KEYS.contains (splitQueryKey qk).2 = true then
      applyOp (splitQueryKey qk).2 v qv else Except.ok false) =
    (OPERATOR_KEYS.contains (splitQueryKey qk).2 && isOkTrue (applyOp (splitQueryKey qk).2 v qv))
  by_cases hco : OPERATOR_KEYS.contains (splitQueryKey qk).2 = true
  · rw [if_pos hco, hco, Bool.true_and]
  · rw [if_neg hco, Bool.eq_false_iff.mpr hco, Bool.false_and]
    rfl

/-- The two per-entry found-a-match conditions agree on the flattened
map. -/
lemma keyFoundCode_eq_spec (d : DictSearchQuery) (flat : List (String × Value))
    (hnd : NodupKeys flat) (e : String × Value) :
    keyFoundCode d flat e = specKeyFound d flat e.1 e.2 := by
  unfold keyFoundCode specKeyFound
  exact any_congr_on_mem flat _ _
    (fun p hp => innerCond_eq_specPairMatches d flat hnd e.1 e.2 p hp)

/-- Lookup through the union fold. -/
lemma specUnionGo_lookup (d : DictSearchQuery) :
    ∀ (rest : List (String × Value)), NodupKeys rest →
      ∀ (acc : List (String × Value)) (k : String),
        lookupValue (specUnionGo d rest acc) k =
          (match lookupValue rest k with
           | some v => if d.query.any (fun e => specPairMatches d e.1 e.2 (k, v)) then
               some v else lookupValue acc k
           | none => lookupValue acc k) := by
  intro rest
  induction rest with
  | nil => intro _ acc k; rfl
  | cons p rest ih =>
    intro hnd acc k
    obtain ⟨j, w⟩ := p
    have hndr : NodupKeys rest := (List.nodup_cons.mp hnd).2
    have hjrest : j ∉ rest.map Prod.fst := (List.nodup_cons.mp hnd).1
    show lookupValue (specUnionGo d rest
        (if d.query.any (fun e => specPairMatches d e.1 e.2 (j, w)) then dictSet acc j w
         else acc)) k = _
    rw [ih hndr]
    by_cases hjk : j = k
    · subst hjk
      rw [lookupValue_eq_none rest j hjrest]
      have hck : lookupValue ((j, w) :: rest) j = some w := by simp [lookupValue]
      rw [hck]
      by_cases hc : d.query.any (fun e => specPairMatches d e.1 e.2 (j, w)) = true
      · simp [hc, lookupValue_dictSet]
      · simp [hc]
    · have hck : lookupValue ((j, w) :: rest) k = lookupValue rest k := by
        simp [lookupValue, hjk]
      rw [hck]
      have hacc : lookupValue (if d.query.any (fun e => specPairMatches d e.1 e.2 (j, w))
          then dictSet acc j w else acc) k = lookupValue acc k := by
        by_cases hc : d.query.any (fun e => specPairMatches d e.1 e.2 (j, w)) = true
        · rw [if_pos hc, lookupValue_dictSet, if_neg hjk]
        · rw [if_neg hc]
      cases hrv : lookupValue rest k with
      | none => simp [hacc]
      | some v => simp [hacc]

/-- Two query entries with the same pattern-key are the same entry
when the declared keys are duplicate-free. -/
lemma entry_eq_of_nodup_keys (l : List (String × Value))
    (hq : (l.map Prod.fst).Nodup) (e1 e2 : String × Value)
    (h1 : e1 ∈ l) (h2 : e2 ∈ l) (hk : e1.1 = e2.1) : e1 = e2 := by
  induction l with
  | nil => cases h1
  | cons p rest ih =>
    have hq' : (p.1 :: rest.map Prod.fst).Nodup := by simpa using hq
    have hph : p.1 ∉ rest.map Prod.fst := (List.nodup_cons.mp hq').1
    have hndr : (rest.map Prod.fst).Nodup := (List.nodup_cons.mp hq').2
    rcases List.mem_cons.mp h1 with ha | ha <;> rcases List.mem_cons.mp h2 with hb | hb
    · rw [ha, hb]
    · exfalso
      apply hph
      rw [ha] at hk
      rw [hk]
      exact List.mem_map.mpr ⟨e2, hb, rfl⟩
    · exfalso
      apply hph
      rw [hb] at hk
      rw [← hk]
      exact List.mem_map.mpr ⟨e1, ha, rfl⟩
    · exact ih hndr ha hb

/-- The matched-key set equals the declared-key set exactly when every
declared pattern-key found a kept pair (for duplicate-free declared
keys). -/
lemma sameStrSet_eq_specAllFound (d : DictSearchQuery) (flat : List (String × Value))
    (hnd : NodupKeys flat) (hq : (d.query.map Prod.fst).Nodup) :
    sameStrSet (execOuterPure d flat d.query ([], [])).2 (d.query.map Prod.fst) =
      specAllFound d flat := by
  have hmem : ∀ k, k ∈ (execOuterPure d flat d.query ([], [])).2 ↔
      d.query.any (fun e => k == e.1 && specKeyFound d flat e.1 e.2) = true := by
    intro k
    have hfun : (fun (e : String × Value) => k == e.1 && keyFoundCode d flat e) =
        (fun (e : String × Value) => k == e.1 && specKeyFound d flat e.1 e.2) := by
      funext e
      rw [keyFoundCode_eq_spec d flat hnd e]
    rw [execOuterPure_mks, hfun]
    simp
  cases hA : specAllFound d flat with
  | true =>
    unfold sameStrSet
    rw [Bool.and_eq_true]
    constructor
    · rw [List.all_eq_true]
      intro k hk
      rcases List.any_eq_true.mp ((hmem k).mp hk) with ⟨e, he, hcond⟩
      have hcond' : (k == e.1) = true ∧ specKeyFound d flat e.1 e.2 = true := by
        simpa using hcond
      rw [contains_iff_mem_str]
      exact List.mem_map.mpr ⟨e, he, (beq_iff_eq.mp hcond'.1).symm⟩
    · rw [List.all_eq_true]
      intro k hk
      rcases List.mem_map.mp hk with ⟨e, he, hke⟩
      have hfound : specKeyFound d flat e.1 e.2 = true := by
        have := List.all_eq_true.mp hA e he
        simpa using this
      rw [contains_iff_mem_str]
      apply (hmem k).mpr
      exact List.any_eq_true.mpr ⟨e, he, by
        rw [hfound, Bool.and_true]
        exact beq_iff_eq.mpr hke.symm⟩
  | false =>
    rcases List.all_eq_false.mp hA with ⟨e, he, hne⟩
    have hnotin : e.1 ∉ (execOuterPure d flat d.query ([], [])).2 := by
      intro hin
      rcases List.any_eq_true.mp ((hmem e.1).mp hin) with ⟨e', he', hcond⟩
      have hcond' : (e.1 == e'.1) = true ∧ specKeyFound d flat e'.1 e'.2 = true := by
        simpa using hcond
      have heq : e' = e :=
        entry_eq_of_nodup_keys d.query hq e' e he' he (beq_iff_eq.mp hcond'.1).symm
      subst heq
      exact hne (by simpa using hcond'.2)
    unfold sameStrSet
    have hall : (d.query.map Prod.fst).all
        (fun k => (execOuterPure d flat d.query ([], [])).2.contains k) = false := by
      rw [List.all_eq_false]
      refine ⟨e.1, List.mem_map.mpr ⟨e, he, rfl⟩, ?_⟩
      intro hc
      exact hnotin ((contains_iff_mem_str _ _).mp hc)
    rw [hall, Bool.and_false]

/-- Claim C1 (amended): whenever no operator application performed
during the scan raises (and the declared pattern-keys are pairwise
distinct, as Python dict keys are), `execute` returns normally, and
its result is — as a map — the union of all FlatKey-to-value pairs of
the flattened input whose key matches some declared pattern-key and
whose value satisfies that pattern-key's operator, provided every
declared pattern-key found at least one such pair; if any declared
pattern-key found zero pairs, the result is the empty map, with no
exception for "nothing matched". -/
theorem execute_union_contract (d : DictSearchQuery) (data : VDict) (fs lii : String)
    (hscan : scanOKb d data fs lii = true)
    (hq : (d.query.map Prod.fst).Nodup) :
    d.execute data fs lii = .ok (execPure d data fs lii) ∧
    (∀ k, lookupValue (execPure d data fs lii) k =
      lookupValue (specExecute d data fs lii) k) := by
  have hnd := flatten_nodupKeys data fs lii
  have herr : ∀ e ∈ d.query, ∀ p ∈ flatten_dict data fs lii,
      d.matchKey (splitQueryKey e.1).1 p.1 = true →
      exOk (d.operate (splitQueryKey e.1).2 p.1 (flatten_dict data fs lii) e.2) = true := by
    intro e he p hp hm
    have h1 := List.all_eq_true.mp hscan p hp
    have h2 := List.all_eq_true.mp h1 e he
    rw [hm] at h2
    simpa using h2
  constructor
  · cases hP : execOuterPure d (flatten_dict data fs lii) d.query ([], []) with
    | mk mf mks =>
      unfold DictSearchQuery.execute
      rw [execOuter_eq_pure d (flatten_dict data fs lii) d.query [] [] herr, hP]
      unfold execPure
      rw [hP]
      by_cases hS : sameStrSet mks (d.query.map Prod.fst) = true
      · simp [hS]
      · simp [hS]
  · intro k
    cases hP : execOuterPure d (flatten_dict data fs lii) d.query ([], []) with
    | mk mf mks =>
      unfold execPure specExecute
      rw [hP]
      have hS := sameStrSet_eq_specAllFound d (flatten_dict data fs lii) hnd hq
      rw [hP] at hS
      by_cases hA : specAllFound d (flatten_dict data fs lii) = true
      · rw [if_pos (by rw [hS]; exact hA), if_pos hA]
        have h1 := execOuterPure_lookup d (flatten_dict data fs lii) hnd d.query ([], []) k
        rw [hP] at h1
        have h2 := specUnionGo_lookup d (flatten_dict data fs lii) hnd [] k
        show lookupValue mf k = lookupValue (specUnionGo d (flatten_dict data fs lii) []) k
        cases hfv : lookupValue (flatten_dict data fs lii) k with
        | none =>
          have h1' : lookupValue (mf, mks).1 k = lookupValue (([], []) :
              List (String × Value) × List String).1 k := by
            rw [h1, hfv]
          have h2' : lookupValue (specUnionGo d (flatten_dict data fs lii) []) k =
              lookupValue ([] : List (String × Value)) k := by
            rw [h2, hfv]
          rw [h1', h2']
        | some v =>
          have hmemp : (k, v) ∈ flatten_dict data fs lii :=
            mem_of_lookupValue (flatten_dict data fs lii) k v hfv
          have hfun : (fun (e : String × Value) => innerCond d (flatten_dict data fs lii)
              (splitQueryKey e.1).1 (splitQueryKey e.1).2 e.2 (k, v)) =
              (fun (e : String × Value) => specPairMatches d e.1 e.2 (k, v)) := by
            funext e
            exact innerCond_eq_specPairMatches d (flatten_dict data fs lii) hnd e.1 e.2
              (k, v) hmemp
          have h1' : lookupValue (mf, mks).1 k =
              (if (d.query.any fun e => innerCond d (flatten_dict data fs lii)
                  (splitQueryKey e.1).1 (splitQueryKey e.1).2 e.2 (k, v)) = true then some v
               else lookupValue (([], []) : List (String × Value) × List String).1 k) := by
            rw [h1, hfv]
          have h2' : lookupValue (specUnionGo d (flatten_dict data fs lii) []) k =
              (if (d.query.any fun e => specPairMatches d e.1 e.2 (k, v)) = true then some v
               else lookupValue ([] : List (String × Value)) k) := by
            rw [h2, hfv]
          rw [h1', h2', hfun]
      · rw [if_neg (by rw [hS]; exact hA), if_neg hA]

/-- Claim C1 witness: the contract at the spec's own example — query
`\x7b'a.b.c': 1\x7d` on `\x7b'a': \x7b'b': \x7b'c': 1\x7d\x7d, 'd': [\x7b'e': 2\x7d, \x7b'f': 3\x7d]\x7d`:
no operator raises, `execute` returns the pure scan result, which is
the union map `\x7b'a.b.c': 1\x7d`, agreeing with the claim's map. -/
theorem execute_union_contract_witness :
    DictSearchQuery.execute (DictSearchQuery.mk [("a.b.c", .pyInt 1)] true true)
      (VDict.ofList
        [("a", .pyDict (VDict.ofList [("b", .pyDict (VDict.ofList [("c", .pyInt 1)]))])),
         ("d", .pyList (VList.ofList
           [.pyDict (VDict.ofList [("e", .pyInt 2)]),
            .pyDict (VDict.ofList [("f", .pyInt 3)])]))]) "." "#%s" =
      .ok (execPure (DictSearchQuery.mk [("a.b.c", .pyInt 1)] true true)
        (VDict.ofList
          [("a", .pyDict (VDict.ofList [("b", .pyDict (VDict.ofList [("c", .pyInt 1)]))])),
           ("d", .pyList (VList.ofList
             [.pyDict (VDict.ofList [("e", .pyInt 2)]),
              .pyDict (VDict.ofList [("f", .pyInt 3)])]))]) "." "#%s") ∧
    lookupValue (execPure (DictSearchQuery.mk [("a.b.c", .pyInt 1)] true true)
        (VDict.ofList
          [("a", .pyDict (VDict.ofList [("b", .pyDict (VDict.ofList [("c", .pyInt 1)]))])),
           ("d", .pyList (VList.ofList
             [.pyDict (VDict.ofList [("e", .pyInt 2)]),
              .pyDict (VDict.ofList [("f", .pyInt 3)])]))]) "." "#%s") "a.b.c" =
      lookupValue (specExecute (DictSearchQuery.mk [("a.b.c", .pyInt 1)] true true)
        (VDict.ofList
          [("a", .pyDict (VDict.ofList [("b", .pyDict (VDict.ofList [("c", .pyInt 1)]))])),
           ("d", .pyList (VList.ofList
             [.pyDict (VDict.ofList [("e", .pyInt 2)]),
              .pyDict (VDict.ofList [("f", .pyInt 3)])]))]) "." "#%s") "a.b.c" := by
  have h := execute_union_contract (DictSearchQuery.mk [("a.b.c", .pyInt 1)] true true)
    (VDict.ofList
      [("a", .pyDict (VDict.ofList [("b", .pyDict (VDict.ofList [("c", .pyInt 1)]))])),
       ("d", .pyList (VList.ofList
         [.pyDict (VDict.ofList [("e", .pyInt 2)]),
          .pyDict (VDict.ofList [("f", .pyInt 3)])]))]) "." "#%s"
    (by decide) (by decide)
  exact ⟨h.1, h.2 "a.b.c"⟩

/-- Claim C1 counterexample: on `\x7b'b': 'y'\x7d` with query
`\x7b'*$lt': 1\x7d` the declared pattern-key finds zero satisfying pairs
(the comparison raises rather than holding), so the claim as stated
requires the empty map; `execute` instead raises `TypeError`. -/
theorem execute_union_contract_counterexample :
    specKeyFound (DictSearchQuery.mk [("*$lt", .pyInt 1)] true true)
      (flatten_dict (VDict.ofList [("b", .pyStr "y")]) "." "#%s") "*$lt" (.pyInt 1) = false ∧
    DictSearchQuery.execute (DictSearchQuery.mk [("*$lt", .pyInt 1)] true true)
      (VDict.ofList [("b", .pyStr "y")]) "." "#%s" = .error .typeError ∧
    DictSearchQuery.execute (DictSearchQuery.mk [("*$lt", .pyInt 1)] true true)
      (VDict.ofList [("b", .pyStr "y")]) "." "#%s" ≠ .ok [] := by
  refine ⟨by decide, by decide, by decide⟩
